import Mathlib

/-!
Verification development for the `nofakes-demo` business-directory service.

The TypeScript source is shallowly embedded:

* JavaScript numbers are modelled as exact rationals (`ℚ`).  Every number the
  service computes is obtained from integer ratings `1..5` by sums, one
  division, `Math.floor(x * 10) / 10`, and comparisons; for such values the
  IEEE-754 double computation agrees with the exact rational one for any
  review count a process could hold, so the rational model is faithful.
* `Date` values (`new Date()`, `getTime()`) are modelled as an integer
  timestamp that is passed to each state-changing operation explicitly.
* The mutable closures of `createInMemDb` (src/inmem_store.ts) become explicit
  state passing: every operation returns its result together with the new
  store state.
* `Array.prototype.sort` (ES2019 and Node 18) is a stable sort; a stable sort
  of a list under a total preorder is unique, so it is embedded as Mathlib's
  stable `List.insertionSort`.
* Fallible code returns explicit result variants, exactly as the source's
  `RepositoryEditResult` / `RepositoryFetchResult` tagged unions do; `Error`
  objects are carried as their message strings.
-/

/-- Result type of repository create operations
(`core.RepositoryEditResult<T>`): `{type:'success'} | {type:'database_error'}`. -/
inductive EditResult (α : Type) where
  | success (value : α)
  | databaseError (msg : String)
deriving DecidableEq, Repr

/-- Result type of repository fetch operations (`core.RepositoryFetchResult<T>`):
`{type:'success'} | {type:'record_not_found'} | {type:'database_error'}`. -/
inductive FetchResult (α : Type) where
  | success (value : α)
  | recordNotFound
  | databaseError (msg : String)
deriving DecidableEq, Repr

/-- A stored review (`core.Review`): business_id, username, rating, text and
the repository-assigned creation date. -/
structure Review where
  business_id : String
  username : String
  rating : ℚ
  text : String
  creation_date : ℤ
deriving DecidableEq, Repr

/-- Discriminant of the `Business` tagged union: `'online' | 'physical'`. -/
inductive BusinessKind where
  | online
  | physical
deriving DecidableEq, Repr

/-- The variant-specific business fields: an online business has a `website`,
a physical one an `address` and a `phone`. -/
inductive BusinessExtra where
  | online (website : String)
  | physical (address : String) (phone : String)
deriving DecidableEq, Repr

/-- The fields shared by `core.OnlineBusiness` and `core.PhysicalBusiness`
(plus the variant-specific ones in `extra`): id, name, email, the review
aggregates and the stored review list. -/
structure BusinessValue where
  id : String
  name : String
  email : String
  extra : BusinessExtra
  total_reviews : ℕ
  avg_rating : ℚ
  latest_reviews : List Review
deriving DecidableEq, Repr

/-- A stored `core.Business`: the `{type, value}` wrapper the in-memory store
keeps in its `businesses` array. -/
structure Business where
  type : BusinessKind
  value : BusinessValue
deriving DecidableEq, Repr

/-- Input for `createOnlineBusiness` (`core.CreateOnlineBusinessData`). -/
structure CreateOnlineBusinessData where
  name : String
  website : String
  email : String
deriving DecidableEq, Repr

/-- Input for `createPhysicalBusiness` (`core.CreatePhysicalBusinessData`). -/
structure CreatePhysicalBusinessData where
  name : String
  address : String
  phone : String
  email : String
deriving DecidableEq, Repr

/-- Input for `createReview` (`core.CreateReviewData`): text, rating,
username. -/
structure CreateReviewData where
  text : String
  rating : ℚ
  username : String
deriving DecidableEq, Repr

/-- The truncation `Math.floor(x * 10) / 10` applied to the average rating. -/
def floorTenths (q : ℚ) : ℚ := (⌊q * 10⌋ : ℚ) / 10

/-- The comparator `(prev, next) => next.creation_date.getTime() -
prev.creation_date.getTime()` orders reviews by descending creation date;
ties compare equal, and the ES2019 stable sort keeps their insertion order. -/
def sortReviewsDesc (l : List Review) : List Review :=
  l.insertionSort fun a b => b.creation_date ≤ a.creation_date

/-- State captured by the `createInMemDb` closure: the `businesses` array,
the `businessIdCounter`, and the global `reviews` array. -/
structure InMemDb where
  businesses : List Business
  businessIdCounter : ℕ
  reviews : List Review
deriving DecidableEq, Repr

/-- The fresh state built by `createInMemDb()`. -/
def initInMemDb : InMemDb := ⟨[], 0, []⟩

/-- Replace the first business whose `value.id` equals `id` by `f` of it,
modelling JavaScript `find` followed by in-place mutation of the found
element. -/
def updateBusiness (id : String) (f : Business → Business) :
    List Business → List Business
  | [] => []
  | b :: rest =>
    if b.value.id == id then f b :: rest else b :: updateBusiness id f rest

namespace InMem

/-- In-memory `createOnlineBusiness`: bump the counter, push a fresh online
business with zero aggregates, and return it. -/
def createOnlineBusiness (data : CreateOnlineBusinessData) (s : InMemDb) :
    EditResult BusinessValue × InMemDb :=
  let counter := s.businessIdCounter + 1
  let business : BusinessValue :=
    ⟨Nat.repr counter, data.name, data.email, .online data.website, 0, 0, []⟩
  (.success business,
    ⟨s.businesses ++ [⟨.online, business⟩], counter, s.reviews⟩)

/-- In-memory `createPhysicalBusiness`: bump the counter, push a fresh
physical business with zero aggregates, and return it. -/
def createPhysicalBusiness (data : CreatePhysicalBusinessData) (s : InMemDb) :
    EditResult BusinessValue × InMemDb :=
  let counter := s.businessIdCounter + 1
  let business : BusinessValue :=
    ⟨Nat.repr counter, data.name, data.email,
      .physical data.address data.phone, 0, 0, []⟩
  (.success business,
    ⟨s.businesses ++ [⟨.physical, business⟩], counter, s.reviews⟩)

/-- The object the in-memory `getBusiness` returns on success:
`{...inMemBusiness, latest_reviews: sorted}`, i.e. the stored `{type, value}`
wrapper spread out, plus a top-level `latest_reviews` field holding the
sorted-and-sliced copy.  Note that `value.latest_reviews` stays the full
(in-place sorted) array. -/
structure FetchedBusiness where
  type : BusinessKind
  value : BusinessValue
  latest_reviews : List Review
deriving DecidableEq, Repr

/-- In-memory `getBusiness`: find the business by id; sort its
`latest_reviews` by date descending in place (`Array.sort` mutates), take
the first `3` into a fresh array, and return the spread object.  The state
change reflects the in-place sort of the stored array. -/
def getBusiness (id : String) (s : InMemDb) :
    FetchResult FetchedBusiness × InMemDb :=
  match s.businesses.find? (fun b => b.value.id == id) with
  | none => (.recordNotFound, s)
  | some inMemBusiness =>
    let sorted := sortReviewsDesc inMemBusiness.value.latest_reviews
    let value' : BusinessValue := { inMemBusiness.value with latest_reviews := sorted }
    let sortStored : Business → Business := fun b =>
      ⟨b.type, { b.value with latest_reviews := sortReviewsDesc b.value.latest_reviews }⟩
    (.success ⟨inMemBusiness.type, value', sorted.take 3⟩,
      { s with businesses := updateBusiness id sortStored s.businesses })

/-- In-memory `createReview`: fail with a database error when the business
does not exist; otherwise push the new review to the global `reviews` array
and to the business's `latest_reviews`, increment `total_reviews`, and
recompute `avg_rating` as the floor-truncated mean of the ratings in
`latest_reviews`. -/
def createReview (businessId : String) (data : CreateReviewData) (now : ℤ)
    (s : InMemDb) : EditResult Review × InMemDb :=
  match s.businesses.find? (fun b => b.value.id == businessId) with
  | none => (.databaseError "Business not found", s)
  | some _ =>
    let newReview : Review :=
      ⟨businessId, data.username, data.rating, data.text, now⟩
    let mutate : Business → Business := fun b =>
      let lr := b.value.latest_reviews ++ [newReview]
      let ratingsSum := (lr.map (fun r => r.rating)).sum
      let totalReviews := lr.length
      let avg : ℚ :=
        if totalReviews ≠ 0 then floorTenths (ratingsSum / totalReviews) else 0
      ⟨b.type,
        { b.value with
            total_reviews := b.value.total_reviews + 1
            latest_reviews := lr
            avg_rating := avg }⟩
    (.success newReview,
      { s with
          reviews := s.reviews ++ [newReview]
          businesses := updateBusiness businessId mutate s.businesses })

end InMem

/-!
Reachable in-memory store states and the invariant the store maintains.
-/

/-- One external operation on the in-memory repository, with the `Date`
ambient times passed explicitly. -/
inductive Op where
  | createOnline (d : CreateOnlineBusinessData)
  | createPhysical (d : CreatePhysicalBusinessData)
  | fetch (id : String)
  | addReview (id : String) (d : CreateReviewData) (now : ℤ)
deriving Repr

/-- Execute one operation for its state effect. -/
def execOp (s : InMemDb) : Op → InMemDb
  | .createOnline d => (InMem.createOnlineBusiness d s).2
  | .createPhysical d => (InMem.createPhysicalBusiness d s).2
  | .fetch id => (InMem.getBusiness id s).2
  | .addReview id d now => (InMem.createReview id d now s).2

/-- Execute a sequence of operations from the fresh store. -/
def execOps (ops : List Op) : InMemDb := ops.foldl execOp initInMemDb

/-- A state is reachable when some operation sequence produces it from
`createInMemDb()`. -/
def Reachable (s : InMemDb) : Prop := ∃ ops : List Op, execOps ops = s

/-- All reviews created so far for the business with the given id (the global
`reviews` array filtered by `business_id`). -/
def reviewsFor (s : InMemDb) (id : String) : List Review :=
  s.reviews.filter (fun r => r.business_id == id)

/-- The aggregate fields of a stored business agree with its stored review
list: `total_reviews` is its length and `avg_rating` is the floor-truncated
mean of its ratings (`0` with no reviews). -/
def aggConsistent (b : Business) : Prop :=
  b.value.total_reviews = b.value.latest_reviews.length ∧
  b.value.avg_rating =
    (if b.value.latest_reviews.length = 0 then 0
     else floorTenths (((b.value.latest_reviews.map (fun r => r.rating)).sum) /
       (b.value.latest_reviews.length : ℚ)))

/-- Store invariant: the counter counts the businesses, the i-th business has
id `toString (i+1)`, every review's `business_id` was issued, each business's
stored review list is a permutation of its slice of the global `reviews`
array, and the aggregates are consistent. -/
structure StoreInv (s : InMemDb) : Prop where
  count_eq : s.businesses.length = s.businessIdCounter
  ids_indexed : ∀ i (h : i < s.businesses.length),
    (s.businesses.get ⟨i, h⟩).value.id = Nat.repr (i + 1)
  reviews_owned : ∀ r ∈ s.reviews,
    ∃ k, k < s.businessIdCounter ∧ r.business_id = Nat.repr (k + 1)
  latest_perm : ∀ b ∈ s.businesses,
    b.value.latest_reviews.Perm (reviewsFor s b.value.id)
  agg : ∀ b ∈ s.businesses, aggConsistent b

/-- The in-place mutation `getBusiness` performs on the found business: its
stored `latest_reviews` array is left sorted by descending date. -/
def sortStoredBusiness (b : Business) : Business :=
  ⟨b.type, { b.value with latest_reviews := sortReviewsDesc b.value.latest_reviews }⟩

/-- The in-place mutation `createReview` performs on the found business:
append the new review, bump `total_reviews`, recompute `avg_rating`. -/
def addReviewToBusiness (r : Review) (b : Business) : Business :=
  let lr := b.value.latest_reviews ++ [r]
  let ratingsSum := (lr.map (fun x => x.rating)).sum
  let totalReviews := lr.length
  let avg : ℚ :=
    if totalReviews ≠ 0 then floorTenths (ratingsSum / totalReviews) else 0
  ⟨b.type,
    { b.value with
        total_reviews := b.value.total_reviews + 1
        latest_reviews := lr
        avg_rating := avg }⟩

/-- Number of business-creation operations in a sequence. -/
def countBusinessCreates (ops : List Op) : ℕ :=
  ops.countP (fun op => match op with
    | .createOnline _ => true
    | .createPhysical _ => true
    | _ => false)

/-!
The request-handler layer of src/server.ts (revision with `avg_rating`):
`getBusinessHandler`, `postReviewHandler` and `createBusiness`, specialised
to the in-memory repository.  Request bodies are modelled as JSON values and
the zod schema `postReviewJson` as a partial parse of them.
-/

/-- A JSON value, as produced by `JSON.parse`. -/
inductive Json where
  | null
  | bool (b : Bool)
  | num (q : ℚ)
  | str (s : String)
  | arr (elems : List Json)
  | obj (fields : List (String × Json))

/-- Key lookup in a parsed JSON object.  `JSON.parse` keeps the last
occurrence of a duplicated key, hence the reversed search. -/
def jsonLookup (fields : List (String × Json)) (k : String) : Option Json :=
  (fields.reverse.find? (fun p => p.1 == k)).map (fun p => p.2)

/-- The zod check `z.string()`. -/
def zodString : Json → Option String
  | .str s => some s
  | _ => none

/-- The zod check `z.number()`. -/
def zodNumber : Json → Option ℚ
  | .num q => some q
  | _ => none

/-- The zod schema `postReviewJson = z.object({text: z.string(), rating:
z.number(), username: z.string()})`: unknown keys are ignored, missing or
wrongly-typed keys fail the parse. -/
def parseReviewBody (j : Json) : Option CreateReviewData :=
  match j with
  | .obj fields =>
    (jsonLookup fields "text").bind fun tj =>
      (zodString tj).bind fun text =>
        (jsonLookup fields "rating").bind fun rj =>
          (zodNumber rj).bind fun rating =>
            (jsonLookup fields "username").bind fun uj =>
              (zodString uj).map fun username =>
                ⟨text, rating, username⟩
  | _ => none

/-- Numeric value of a character for `parseInt`-style digit parsing in the
given base (`0-9`, `a-z`, `A-Z`). -/
def charDigitVal (base : ℕ) (c : Char) : Option ℕ :=
  let v : Option ℕ :=
    if 48 ≤ c.toNat ∧ c.toNat ≤ 57 then some (c.toNat - 48)
    else if 97 ≤ c.toNat ∧ c.toNat ≤ 122 then some (c.toNat - 87)
    else if 65 ≤ c.toNat ∧ c.toNat ≤ 90 then some (c.toNat - 55)
    else none
  v.bind fun d => if d < base then some d else none

/-- JavaScript `parseInt` with no radix argument, wrapped by `safeParseInt`
to map `NaN` to `none`: skip leading whitespace, optional sign, optional
`0x`/`0X` hex switch, then the longest run of digits of the radix; no digit
at all means `NaN`. -/
def safeParseInt (s : String) : Option ℤ :=
  let cs0 := s.data.dropWhile (fun c => c.isWhitespace)
  let signed : ℤ × List Char :=
    match cs0 with
    | '-' :: rest => (-1, rest)
    | '+' :: rest => (1, rest)
    | _ => (1, cs0)
  let based : ℕ × List Char :=
    match signed.2 with
    | '0' :: 'x' :: rest => (16, rest)
    | '0' :: 'X' :: rest => (16, rest)
    | _ => (10, signed.2)
  let ds := based.2.takeWhile (fun c => (charDigitVal based.1 c).isSome)
  if ds.isEmpty then none
  else some (signed.1 *
    (ds.foldl (fun acc c => based.1 * acc + ((charDigitVal based.1 c).getD 0)) 0 : ℕ))

/-- Truncation of a rational toward zero (`Math.trunc`), as JavaScript's
`%` uses for its quotient; the denominator is positive, so truncated
integer division of the numerator by the denominator computes it. -/
def ratTrunc (q : ℚ) : ℤ := q.num.tdiv q.den

/-- JavaScript `rating % 1`: the dividend minus the truncated quotient. -/
def jsModOne (q : ℚ) : ℚ := q - (ratTrunc q : ℚ)

/-- The flattened business JSON the server writes:
`{type: business.type, ...business.value}`.  Note `latest_reviews` comes
from `business.value`, not from the fetch result's top-level (truncated)
`latest_reviews` field. -/
structure BusinessJson where
  type : BusinessKind
  id : String
  name : String
  email : String
  extra : BusinessExtra
  total_reviews : ℕ
  avg_rating : ℚ
  latest_reviews : List Review
deriving DecidableEq, Repr

/-- Observable HTTP response of a handler: `writeError` (400),
`writeNotFoundError` (404), `writeJson` (200) or the bare
`writeHead(201)` of a created review. -/
inductive HandlerResponse where
  | clientError (msg : String)
  | notFoundError (msg : String)
  | jsonBody (body : BusinessJson)
  | createdEmpty
deriving DecidableEq, Repr

/-- Handler `getBusinessHandler`: fetch by id; 404 on `record_not_found`, 400
"Database error happened" on `database_error`, otherwise serialize
`{type: business.type, ...business.value}`. -/
def getBusinessHandler (businessId : String) (s : InMemDb) :
    HandlerResponse × InMemDb :=
  match InMem.getBusiness businessId s with
  | (.recordNotFound, s') =>
    (.notFoundError ("Business with id " ++ businessId ++ " not found"), s')
  | (.databaseError _, s') => (.clientError "Database error happened", s')
  | (.success business, s') =>
    (.jsonBody ⟨business.type, business.value.id, business.value.name,
      business.value.email, business.value.extra, business.value.total_reviews,
      business.value.avg_rating, business.value.latest_reviews⟩, s')

/-- Handler `postReviewHandler`: reject an unparseable business id, a body failing
the zod schema, then text length outside [20,500], then a rating outside
[1,5] or with a nonzero remainder mod 1; otherwise call the repository's
`createReview`, turning `database_error` into a 400 and success into 201. -/
def postReviewHandler (businessId : String) (body : Json) (now : ℤ)
    (s : InMemDb) : HandlerResponse × InMemDb :=
  match safeParseInt businessId with
  | none => (.clientError "Invalid business id provided", s)
  | some _ =>
    match parseReviewBody body with
    | none => (.clientError "Invalid data format", s)
    | some input =>
      if input.text.length < 20 then (.clientError "Review text is too short", s)
      else if input.text.length > 500 then (.clientError "Review text is too long", s)
      else if input.rating < 1 ∨ input.rating > 5 then
        (.clientError "Rating is out of range", s)
      else if jsModOne input.rating ≠ 0 then
        (.clientError "Rating must be an integer", s)
      else
        match InMem.createReview businessId input now s with
        | (.databaseError m, s') => (.clientError ("Database error: " ++ m), s')
        | (.success _, s') => (.createdEmpty, s')

/-- The tagged-union body of `POST /business`
(`CreateBusinessInput` in src/server.ts). -/
inductive CreateBusinessInput where
  | online (name : String) (website : String) (email : String)
  | physical (name : String) (address : String) (phone : String) (email : String)
deriving DecidableEq, Repr

/-- Operation `createBusiness`: enforce the name-length invariant (75 online, 50
physical) before calling the matching repository creation operation; return
the error message on failure, nothing on success. -/
def createBusiness (input : CreateBusinessInput) (s : InMemDb) :
    Option String × InMemDb :=
  match input with
  | .online name website email =>
    if name.length > 75 then (some "Business name is too long", s)
    else
      match InMem.createOnlineBusiness ⟨name, website, email⟩ s with
      | (.databaseError m, s') => (some ("Database error: " ++ m), s')
      | (.success _, s') => (none, s')
  | .physical name address phone email =>
    if name.length > 50 then (some "Business name is too long", s)
    else
      match InMem.createPhysicalBusiness ⟨name, address, phone, email⟩ s with
      | (.databaseError m, s') => (some ("Database error: " ++ m), s')
      | (.success _, s') => (none, s')

/-- The name-length rule `createBusiness` enforces. -/
def nameTooLong : CreateBusinessInput → Prop
  | .online name _ _ => name.length > 75
  | .physical name _ _ _ => name.length > 50

instance : DecidablePred nameTooLong := by
  intro input
  cases input <;> simp [nameTooLong] <;> infer_instance

/-- The §8 scenario: one business, then reviews with ratings 1, 3, 4, 5 at
strictly increasing creation dates. -/
def reviewTraceOps : List Op :=
  [Op.createOnline ⟨"test", "test.com", "t@t.com"⟩,
   Op.addReview "1" ⟨"aaaaaaaaaaaaaaaaaaaa", 1, "u"⟩ 1,
   Op.addReview "1" ⟨"aaaaaaaaaaaaaaaaaaaa", 3, "u"⟩ 2,
   Op.addReview "1" ⟨"aaaaaaaaaaaaaaaaaaaa", 4, "u"⟩ 3,
   Op.addReview "1" ⟨"aaaaaaaaaaaaaaaaaaaa", 5, "u"⟩ 4]

/-!
The document-store-backed repository (src/mongodb_store.ts).  A MongoDB
`ObjectId` is 12 bytes rendered as 24 lowercase hex characters;
`ObjectId.createFromHexString` accepts exactly 24 hex characters (otherwise
it throws, which `handleMongoErr` converts to `database_error`).  The id
value itself is driver-generated and opaque; it is modelled as a natural
number below `16^24` issued sequentially, rendered through `toHex24`.
Network and driver faults other than the malformed-id throw are not
modelled: each single-document operation is assumed to succeed, which is the
store's behaviour whenever the connection is healthy. -/

/-- Lowercase hex digit character. -/
def hexDigitChar (d : ℕ) : Char :=
  if d < 10 then Char.ofNat (48 + d) else Char.ofNat (87 + d)

/-- Little-endian base-16 digits of `m`, padded to the given width. -/
def hexDigitsLE : ℕ → ℕ → List ℕ
  | 0, _ => []
  | w + 1, m => m % 16 :: hexDigitsLE w (m / 16)

/-- The 24-character lowercase hex rendering of an ObjectId value
(`ObjectId.toString()`). -/
def toHex24 (m : ℕ) : String :=
  String.mk (((hexDigitsLE 24 m).reverse).map hexDigitChar)

/-- Model of `ObjectId.createFromHexString`: accepts exactly 24 hex characters
(`[0-9a-fA-F]`), returning the encoded value; anything else throws. -/
def parseHex24 (s : String) : Option ℕ :=
  if s.length = 24 ∧ s.data.all (fun c => (charDigitVal 16 c).isSome) then
    some (s.data.foldl (fun acc c => 16 * acc + (charDigitVal 16 c).getD 0) 0)
  else none

/-- A document of the `business` collection
(`MongoBusinessDoc` in src/mongodb_store.ts): the `_id` ObjectId, the
variant tag, and the business fields. -/
structure MongoDoc where
  oid : ℕ
  type : BusinessKind
  name : String
  email : String
  extra : BusinessExtra
  total_reviews : ℕ
  avg_rating : ℚ
  latest_reviews : List Review
deriving DecidableEq, Repr

/-- The state of the document store: the collection's documents in insertion
order, plus the driver's id generator modelled as a counter. -/
structure MongoState where
  docs : List MongoDoc
  nextOid : ℕ
deriving DecidableEq, Repr

/-- An empty `business` collection. -/
def initMongoState : MongoState := ⟨[], 0⟩

/-- Model of `replaceOne` by `_id`: replace the matching document. -/
def updateDoc (oid : ℕ) (newDoc : MongoDoc) : List MongoDoc → List MongoDoc
  | [] => []
  | d :: rest =>
    if d.oid == oid then newDoc :: rest else d :: updateDoc oid newDoc rest

namespace Mongo

/-- Document-store `createOnlineBusiness`: `insertOne` a fresh document with
zero aggregates and return the business with the new id rendered as hex. -/
def createOnlineBusiness (data : CreateOnlineBusinessData) (st : MongoState) :
    EditResult BusinessValue × MongoState :=
  let oid := st.nextOid + 1
  (.success ⟨toHex24 oid, data.name, data.email, .online data.website, 0, 0, []⟩,
    ⟨st.docs ++ [⟨oid, .online, data.name, data.email, .online data.website, 0, 0, []⟩],
      oid⟩)

/-- Document-store `createPhysicalBusiness`. -/
def createPhysicalBusiness (data : CreatePhysicalBusinessData) (st : MongoState) :
    EditResult BusinessValue × MongoState :=
  let oid := st.nextOid + 1
  (.success ⟨toHex24 oid, data.name, data.email,
      .physical data.address data.phone, 0, 0, []⟩,
    ⟨st.docs ++ [⟨oid, .physical, data.name, data.email,
      .physical data.address data.phone, 0, 0, []⟩], oid⟩)

/-- Document-store `getBusiness`: `createFromHexString` throws on a
malformed id (caught as `database_error`); `findOne` by `_id` returns
`record_not_found` on `null`, else `toBusiness` of the document — with NO
sorting and NO truncation of `latest_reviews`. -/
def getBusiness (id : String) (st : MongoState) :
    FetchResult Business × MongoState :=
  match parseHex24 id with
  | none => (.databaseError "invalid ObjectId hex string", st)
  | some oid =>
    match st.docs.find? (fun doc => doc.oid == oid) with
    | none => (.recordNotFound, st)
    | some doc =>
      (.success ⟨doc.type, ⟨toHex24 doc.oid, doc.name, doc.email, doc.extra,
        doc.total_reviews, doc.avg_rating, doc.latest_reviews⟩⟩, st)

/-- Document-store `createReview`: malformed id throws (database error);
`findOne` null means the business does not exist (database error);
otherwise push the review to the document's `latest_reviews`, set
`total_reviews` to its length, recompute the floor-truncated `avg_rating`,
and `replaceOne` the document. -/
def createReview (businessId : String) (data : CreateReviewData) (now : ℤ)
    (st : MongoState) : EditResult Review × MongoState :=
  match parseHex24 businessId with
  | none => (.databaseError "invalid ObjectId hex string", st)
  | some oid =>
    match st.docs.find? (fun doc => doc.oid == oid) with
    | none => (.databaseError "business does not exist", st)
    | some doc =>
      let newReview : Review :=
        ⟨businessId, data.username, data.rating, data.text, now⟩
      let lr := doc.latest_reviews ++ [newReview]
      let ratingsSum := (lr.map (fun r => r.rating)).sum
      let totalReviews := lr.length
      let avgRating : ℚ :=
        if totalReviews ≠ 0 then floorTenths (ratingsSum / totalReviews) else 0
      let doc' : MongoDoc :=
        { doc with
            latest_reviews := lr
            total_reviews := totalReviews
            avg_rating := avgRating }
      (.success newReview, ⟨updateDoc oid doc' st.docs, st.nextOid⟩)

end Mongo

/-!
Amended C9: a common external-contract harness for the two repositories.
Operations refer to previously created businesses by ordinal (ids are
opaque); each operation's observable outcome records the result variant,
the echoed business fields, and the exposed review history as a multiset
(order-free) of id-less review cores — the counterexample above shows the
stores disagree on the ordering, and the in-memory value list is
untruncated, so order and truncation are exactly what must be quotiented
away. -/

/-- A review with the store-dependent `business_id` stripped. -/
structure RCore where
  username : String
  rating : ℚ
  text : String
  date : ℤ
deriving DecidableEq, Repr

/-- Strip a review to its core. -/
def reviewCore (r : Review) : RCore := ⟨r.username, r.rating, r.text, r.creation_date⟩

/-- An external operation against a repository; `ref` is the ordinal of a
previously returned business id. -/
inductive StoreOp where
  | createOnline (d : CreateOnlineBusinessData)
  | createPhysical (d : CreatePhysicalBusinessData)
  | fetch (ref : ℕ)
  | review (ref : ℕ) (d : CreateReviewData) (now : ℤ)

/-- Observable outcome of one operation. -/
inductive Obs where
  | created (kind : BusinessKind) (name : String) (email : String) (extra : BusinessExtra)
  | createdErr
  | fetchedNone
  | fetchedErr
  | fetched (kind : BusinessKind) (name : String) (email : String)
      (extra : BusinessExtra) (total : ℕ) (avg : ℚ) (history : Multiset RCore)
  | reviewed (core : RCore)
  | reviewErr
  | skipped
deriving DecidableEq

/-- Harness state over the in-memory store: the store, the ids issued so
far, and the observations. -/
structure MemRun where
  s : InMemDb
  issued : List String
  obs : List Obs

/-- Run one operation against the in-memory store. -/
def memStep (run : MemRun) : StoreOp → MemRun
  | .createOnline d =>
    match InMem.createOnlineBusiness d run.s with
    | (.success b, s') =>
      ⟨s', run.issued ++ [b.id], run.obs ++ [.created .online b.name b.email b.extra]⟩
    | (.databaseError _, s') => ⟨s', run.issued, run.obs ++ [.createdErr]⟩
  | .createPhysical d =>
    match InMem.createPhysicalBusiness d run.s with
    | (.success b, s') =>
      ⟨s', run.issued ++ [b.id], run.obs ++ [.created .physical b.name b.email b.extra]⟩
    | (.databaseError _, s') => ⟨s', run.issued, run.obs ++ [.createdErr]⟩
  | .fetch ref =>
    match run.issued.get? ref with
    | none => ⟨run.s, run.issued, run.obs ++ [.skipped]⟩
    | some id =>
      match InMem.getBusiness id run.s with
      | (.recordNotFound, s') => ⟨s', run.issued, run.obs ++ [.fetchedNone]⟩
      | (.databaseError _, s') => ⟨s', run.issued, run.obs ++ [.fetchedErr]⟩
      | (.success fb, s') =>
        ⟨s', run.issued, run.obs ++ [.fetched fb.type fb.value.name fb.value.email
          fb.value.extra fb.value.total_reviews fb.value.avg_rating
          ↑(fb.value.latest_reviews.map reviewCore)]⟩
  | .review ref d now =>
    match run.issued.get? ref with
    | none => ⟨run.s, run.issued, run.obs ++ [.skipped]⟩
    | some id =>
      match InMem.createReview id d now run.s with
      | (.databaseError _, s') => ⟨s', run.issued, run.obs ++ [.reviewErr]⟩
      | (.success r, s') => ⟨s', run.issued, run.obs ++ [.reviewed (reviewCore r)]⟩

/-- Harness state over the document store. -/
structure MongoRun where
  s : MongoState
  issued : List String
  obs : List Obs

/-- Run one operation against the document store. -/
def mongoStep (run : MongoRun) : StoreOp → MongoRun
  | .createOnline d =>
    match Mongo.createOnlineBusiness d run.s with
    | (.success b, s') =>
      ⟨s', run.issued ++ [b.id], run.obs ++ [.created .online b.name b.email b.extra]⟩
    | (.databaseError _, s') => ⟨s', run.issued, run.obs ++ [.createdErr]⟩
  | .createPhysical d =>
    match Mongo.createPhysicalBusiness d run.s with
    | (.success b, s') =>
      ⟨s', run.issued ++ [b.id], run.obs ++ [.created .physical b.name b.email b.extra]⟩
    | (.databaseError _, s') => ⟨s', run.issued, run.obs ++ [.createdErr]⟩
  | .fetch ref =>
    match run.issued.get? ref with
    | none => ⟨run.s, run.issued, run.obs ++ [.skipped]⟩
    | some id =>
      match Mongo.getBusiness id run.s with
      | (.recordNotFound, s') => ⟨s', run.issued, run.obs ++ [.fetchedNone]⟩
      | (.databaseError _, s') => ⟨s', run.issued, run.obs ++ [.fetchedErr]⟩
      | (.success b, s') =>
        ⟨s', run.issued, run.obs ++ [.fetched b.type b.value.name b.value.email
          b.value.extra b.value.total_reviews b.value.avg_rating
          ↑(b.value.latest_reviews.map reviewCore)]⟩
  | .review ref d now =>
    match run.issued.get? ref with
    | none => ⟨run.s, run.issued, run.obs ++ [.skipped]⟩
    | some id =>
      match Mongo.createReview id d now run.s with
      | (.databaseError _, s') => ⟨s', run.issued, run.obs ++ [.reviewErr]⟩
      | (.success r, s') => ⟨s', run.issued, run.obs ++ [.reviewed (reviewCore r)]⟩

/-- Run a sequence against the in-memory store from scratch. -/
def runMem (ops : List StoreOp) : MemRun := ops.foldl memStep ⟨initInMemDb, [], []⟩

/-- Run a sequence against the document store from scratch. -/
def runMongo (ops : List StoreOp) : MongoRun :=
  ops.foldl mongoStep ⟨initMongoState, [], []⟩

/-- Correspondence between the two stores after the same operations: same
population count and counters, ids issued in order (decimal strings
vs. ObjectId hex), and position-wise equal business fields with
permutation-equivalent review histories. -/
structure Corr (n : ℕ) (ms : InMemDb) (gs : MongoState)
    (misd gisd : List String) : Prop where
  mem_count : ms.businesses.length = n
  mem_counter : ms.businessIdCounter = n
  mongo_count : gs.docs.length = n
  mongo_counter : gs.nextOid = n
  mem_issued : misd = (List.range n).map (fun i => Nat.repr (i + 1))
  mongo_issued : gisd = (List.range n).map (fun i => toHex24 (i + 1))
  mem_ids : ∀ i (h : i < ms.businesses.length),
    (ms.businesses.get ⟨i, h⟩).value.id = Nat.repr (i + 1)
  mongo_oids : ∀ i (h : i < gs.docs.length),
    (gs.docs.get ⟨i, h⟩).oid = i + 1
  kind_eq : ∀ i (hm : i < ms.businesses.length) (hg : i < gs.docs.length),
    (ms.businesses.get ⟨i, hm⟩).type = (gs.docs.get ⟨i, hg⟩).type
  name_eq : ∀ i (hm : i < ms.businesses.length) (hg : i < gs.docs.length),
    (ms.businesses.get ⟨i, hm⟩).value.name = (gs.docs.get ⟨i, hg⟩).name
  email_eq : ∀ i (hm : i < ms.businesses.length) (hg : i < gs.docs.length),
    (ms.businesses.get ⟨i, hm⟩).value.email = (gs.docs.get ⟨i, hg⟩).email
  extra_eq : ∀ i (hm : i < ms.businesses.length) (hg : i < gs.docs.length),
    (ms.businesses.get ⟨i, hm⟩).value.extra = (gs.docs.get ⟨i, hg⟩).extra
  total_eq : ∀ i (hm : i < ms.businesses.length) (hg : i < gs.docs.length),
    (ms.businesses.get ⟨i, hm⟩).value.total_reviews =
      (gs.docs.get ⟨i, hg⟩).total_reviews
  mem_total_len : ∀ i (hm : i < ms.businesses.length),
    (ms.businesses.get ⟨i, hm⟩).value.total_reviews =
      (ms.businesses.get ⟨i, hm⟩).value.latest_reviews.length
  mongo_total_len : ∀ i (hg : i < gs.docs.length),
    (gs.docs.get ⟨i, hg⟩).total_reviews =
      (gs.docs.get ⟨i, hg⟩).latest_reviews.length
  avg_eq : ∀ i (hm : i < ms.businesses.length) (hg : i < gs.docs.length),
    (ms.businesses.get ⟨i, hm⟩).value.avg_rating = (gs.docs.get ⟨i, hg⟩).avg_rating
  history_perm : ∀ i (hm : i < ms.businesses.length) (hg : i < gs.docs.length),
    ((ms.businesses.get ⟨i, hm⟩).value.latest_reviews.map reviewCore).Perm
      ((gs.docs.get ⟨i, hg⟩).latest_reviews.map reviewCore)

example :
    (InMem.createOnlineBusiness ⟨"test", "test.com", "t@t.com"⟩ initInMemDb).1 =
      .success ⟨"1", "test", "t@t.com", .online "test.com", 0, 0, []⟩ := by
  decide

example :
    (InMem.getBusiness "1"
      (InMem.createOnlineBusiness ⟨"test", "test.com", "t@t.com"⟩ initInMemDb).2).1 =
      .success ⟨.online, ⟨"1", "test", "t@t.com", .online "test.com", 0, 0, []⟩, []⟩ := by
  decide

/-!
`businessIdCounter.toString()` is `Nat.repr` in the embedding.  The store
relies on the decimal strings of distinct counters being distinct, so we
first prove that `Nat.repr` is injective, going through `Nat.digits`.
-/

theorem toDigitsCore_eq_digits (fuel : ℕ) :
    ∀ (n : ℕ) (acc : List Char), 0 < n → n < 10 ^ (fuel + 1) →
      Nat.toDigitsCore 10 (fuel + 1) n acc =
        ((Nat.digits 10 n).map Nat.digitChar).reverse ++ acc := by
  induction fuel with
  | zero =>
    intro n acc hn hlt
    have hdiv : n / 10 = 0 := Nat.div_eq_of_lt (by simpa using hlt)
    have hmod : n % 10 = n := Nat.mod_eq_of_lt (by simpa using hlt)
    rw [Nat.toDigitsCore]
    simp only [hdiv, if_pos rfl]
    rw [Nat.digits_def' (by norm_num : (1:ℕ) < 10) hn, hmod, hdiv]
    simp
  | succ fuel ih =>
    intro n acc hn hlt
    rw [Nat.toDigitsCore]
    by_cases hdiv : n / 10 = 0
    · have hnlt : n < 10 := by
        by_contra hge
        push_neg at hge
        have := Nat.div_le_div_right (c := 10) hge
        simp [Nat.div_self] at this
        omega
      have hmod : n % 10 = n := Nat.mod_eq_of_lt hnlt
      simp only [hdiv, if_pos rfl]
      rw [Nat.digits_def' (by norm_num : (1:ℕ) < 10) hn, hmod, hdiv]
      simp
    · simp only [hdiv, if_neg hdiv]
      have hpos : 0 < n / 10 := Nat.pos_of_ne_zero hdiv
      have hlt' : n / 10 < 10 ^ (fuel + 1) := by
        have h10 : (0:ℕ) < 10 := by norm_num
        rw [Nat.div_lt_iff_lt_mul h10]
        calc n < 10 ^ (fuel + 2) := hlt
        _ = 10 ^ (fuel + 1) * 10 := by ring
      rw [ih (n / 10) (Nat.digitChar (n % 10) :: acc) hpos hlt']
      rw [Nat.digits_def' (by norm_num : (1:ℕ) < 10) hn]
      simp

theorem repr_eq_digits (n : ℕ) (hn : 0 < n) :
    Nat.repr n = (((Nat.digits 10 n).map Nat.digitChar).reverse).asString := by
  have hfuel : n < 10 ^ (n + 1) := by
    calc n < 10 ^ n := Nat.lt_pow_self (by norm_num) n
    _ ≤ 10 ^ (n + 1) := Nat.pow_le_pow_right (by norm_num) (Nat.le_succ n)
  rw [Nat.repr, Nat.toDigits]
  cases n with
  | zero => omega
  | succ m =>
    rw [toDigitsCore_eq_digits m.succ (m.succ) [] hn hfuel]
    simp

theorem digitChar_inj_lt : ∀ a : ℕ, a < 10 → ∀ b : ℕ, b < 10 →
    Nat.digitChar a = Nat.digitChar b → a = b := by decide

theorem map_digitChar_inj :
    ∀ (l₁ l₂ : List ℕ), (∀ d ∈ l₁, d < 10) → (∀ d ∈ l₂, d < 10) →
      l₁.map Nat.digitChar = l₂.map Nat.digitChar → l₁ = l₂ := by
  intro l₁
  induction l₁ with
  | nil => intro l₂ _ _ h; cases l₂ <;> simp_all
  | cons a t ih =>
    intro l₂ h1 h2 h
    cases l₂ with
    | nil => simp_all
    | cons b t₂ =>
      simp only [List.map_cons, List.cons.injEq] at h
      have ha : a = b := digitChar_inj_lt a (h1 a (by simp)) b (h2 b (by simp)) h.1
      have ht : t = t₂ :=
        ih t₂ (fun d hd => h1 d (by simp [hd])) (fun d hd => h2 d (by simp [hd])) h.2
      rw [ha, ht]

theorem digits_map_ne_zero_str (n : ℕ) (hn : 0 < n)
    (heq : ((Nat.digits 10 n).map Nat.digitChar).reverse = ['0']) : False := by
  have hmap : (Nat.digits 10 n).map Nat.digitChar = ['0'] := by
    have := congrArg List.reverse heq
    simpa using this
  rcases hdig : Nat.digits 10 n with _ | ⟨d, t⟩
  · rw [hdig] at hmap; simp at hmap
  · rw [hdig] at hmap
    simp only [List.map_cons, List.cons.injEq] at hmap
    have ht : t = [] := by
      have := hmap.2
      cases t <;> simp_all
    have hd : d < 10 := Nat.digits_lt_base (by norm_num) (by rw [hdig]; simp)
    have hd0 : d = 0 := by
      have hchar := hmap.1
      revert hchar
      interval_cases d <;> decide
    have : n = 0 := by
      have := congrArg (Nat.ofDigits 10) hdig
      rw [Nat.ofDigits_digits] at this
      rw [this, ht, hd0]
      simp [Nat.ofDigits]
    omega

theorem natRepr_injective : ∀ m n : ℕ, Nat.repr m = Nat.repr n → m = n := by
  intro m n h
  rcases Nat.eq_zero_or_pos m with hm | hm <;> rcases Nat.eq_zero_or_pos n with hn | hn
  · omega
  · exfalso
    subst hm
    rw [repr_eq_digits n hn] at h
    have h0 : Nat.repr 0 = "0" := rfl
    rw [h0] at h
    exact digits_map_ne_zero_str n hn
      (by simpa [List.asString, String.ext_iff] using h.symm)
  · exfalso
    subst hn
    rw [repr_eq_digits m hm] at h
    have h0 : Nat.repr 0 = "0" := rfl
    rw [h0] at h
    exact digits_map_ne_zero_str m hm
      (by simpa [List.asString, String.ext_iff] using h)
  · rw [repr_eq_digits m hm, repr_eq_digits n hn] at h
    have hlist : ((Nat.digits 10 m).map Nat.digitChar).reverse =
        ((Nat.digits 10 n).map Nat.digitChar).reverse := by
      simpa [List.asString, String.ext_iff] using h
    have hmap : (Nat.digits 10 m).map Nat.digitChar = (Nat.digits 10 n).map Nat.digitChar :=
      List.reverse_injective hlist
    have hdig : Nat.digits 10 m = Nat.digits 10 n :=
      map_digitChar_inj _ _ (fun d hd => Nat.digits_lt_base (by norm_num) hd)
        (fun d hd => Nat.digits_lt_base (by norm_num) hd) hmap
    have := congrArg (Nat.ofDigits 10) hdig
    rwa [Nat.ofDigits_digits, Nat.ofDigits_digits] at this

/-!
Generic helpers about `find?`/first-match update on lists with distinct keys,
used to reason about the store's `businesses.find(...)` followed by in-place
mutation.
-/

theorem find_key_at {α κ : Type} [BEq κ] [LawfulBEq κ] (key : α → κ) :
    ∀ (l : List α) (i : ℕ) (h : i < l.length),
      (∀ j (hj : j < l.length), j < i → key (l.get ⟨j, hj⟩) ≠ key (l.get ⟨i, h⟩)) →
      l.find? (fun a => key a == key (l.get ⟨i, h⟩)) = some (l.get ⟨i, h⟩) := by
  intro l
  induction l with
  | nil => intro i h; simp at h
  | cons a t ih =>
    intro i h hne
    cases i with
    | zero => simp [List.find?]
    | succ i =>
      have hlen : i < t.length := by simpa using h
      have hhead : key a ≠ key ((a :: t).get ⟨i + 1, h⟩) := by
        have := hne 0 (by simp) (by omega)
        simpa using this
      have hget : (a :: t).get ⟨i + 1, h⟩ = t.get ⟨i, hlen⟩ := rfl
      rw [List.find?]
      have hbeq : (key a == key ((a :: t).get ⟨i + 1, h⟩)) = false := by
        simpa using hhead
      rw [hget] at hbeq ⊢
      rw [hbeq]
      exact ih i hlen (fun j hj hji => by
        have := hne (j + 1) (by simpa using Nat.succ_lt_succ hj) (by omega)
        simpa using this)

theorem updateBusiness_eq_set :
    ∀ (l : List Business) (i : ℕ) (h : i < l.length) (f : Business → Business),
      (∀ j (hj : j < l.length), j < i →
        (l.get ⟨j, hj⟩).value.id ≠ (l.get ⟨i, h⟩).value.id) →
      updateBusiness ((l.get ⟨i, h⟩).value.id) f l = l.set i (f (l.get ⟨i, h⟩)) := by
  intro l
  induction l with
  | nil => intro i h; simp at h
  | cons a t ih =>
    intro i h f hne
    cases i with
    | zero => simp [updateBusiness]
    | succ i =>
      have hlen : i < t.length := by simpa using h
      have hhead : a.value.id ≠ ((a :: t).get ⟨i + 1, h⟩).value.id := by
        have := hne 0 (by simp) (by omega)
        simpa using this
      have hget : (a :: t).get ⟨i + 1, h⟩ = t.get ⟨i, hlen⟩ := rfl
      rw [updateBusiness]
      rw [hget] at hhead ⊢
      have hbeq : (a.value.id == (t.get ⟨i, hlen⟩).value.id) = false := by
        simpa using hhead
      rw [hbeq]
      simp only [Bool.false_eq_true, if_false, List.set]
      rw [ih i hlen f (fun j hj hji => by
        have := hne (j + 1) (by simpa using Nat.succ_lt_succ hj) (by omega)
        simpa using this)]

theorem updateBusiness_of_no_match (id : String) (f : Business → Business) :
    ∀ l : List Business, (∀ b ∈ l, b.value.id ≠ id) → updateBusiness id f l = l := by
  intro l
  induction l with
  | nil => simp [updateBusiness]
  | cons a t ih =>
    intro h
    rw [updateBusiness]
    have hbeq : (a.value.id == id) = false := by simpa using h a (by simp)
    rw [hbeq]
    simp only [Bool.false_eq_true, if_false]
    rw [ih (fun b hb => h b (by simp [hb]))]

theorem get_append_last {α : Type} (l : List α) (x : α)
    (h : l.length < (l ++ [x]).length) : (l ++ [x]).get ⟨l.length, h⟩ = x := by
  simp

theorem storeInv_init : StoreInv initInMemDb := by
  refine ⟨?_, ?_, ?_, ?_, ?_⟩ <;> simp [initInMemDb]

theorem storeInv_createOnline (s : InMemDb) (d : CreateOnlineBusinessData)
    (h : StoreInv s) : StoreInv (InMem.createOnlineBusiness d s).2 := by
  obtain ⟨hc, hids, hrev, hperm, hagg⟩ := h
  simp only [InMem.createOnlineBusiness]
  refine ⟨?_, ?_, ?_, ?_, ?_⟩
  · simp [hc]
  · intro i hi
    simp only [List.length_append, List.length_cons, List.length_nil] at hi
    by_cases hlt : i < s.businesses.length
    · rw [List.get_append i hlt]
      exact hids i hlt
    · have hi' : i = s.businesses.length := by omega
      subst hi'
      rw [get_append_last]
      simp [hc]
  · intro r hr
    obtain ⟨k, hk, hid⟩ := hrev r hr
    exact ⟨k, by simp only []; omega, hid⟩
  · intro b hb
    rcases List.mem_append.mp hb with hb | hb
    · have := hperm b hb
      simpa [reviewsFor] using this
    · have hbeq : b = ⟨.online, ⟨Nat.repr (s.businessIdCounter + 1), d.name, d.email,
        .online d.website, 0, 0, []⟩⟩ := by simpa using hb
      subst hbeq
      simp only [reviewsFor]
      have hfil : s.reviews.filter
          (fun r => r.business_id == Nat.repr (s.businessIdCounter + 1)) = [] := by
        rw [List.filter_eq_nil]
        intro r hr
        obtain ⟨k, hk, hid⟩ := hrev r hr
        simp only [beq_iff_eq, hid]
        intro hcontra
        have := natRepr_injective _ _ hcontra
        omega
      simpa [hfil] using List.Perm.refl []
  · intro b hb
    rcases List.mem_append.mp hb with hb | hb
    · exact hagg b hb
    · have hbeq : b = ⟨.online, ⟨Nat.repr (s.businessIdCounter + 1), d.name, d.email,
        .online d.website, 0, 0, []⟩⟩ := by simpa using hb
      subst hbeq
      refine ⟨rfl, ?_⟩
      simp [aggConsistent]

theorem storeInv_createPhysical (s : InMemDb) (d : CreatePhysicalBusinessData)
    (h : StoreInv s) : StoreInv (InMem.createPhysicalBusiness d s).2 := by
  obtain ⟨hc, hids, hrev, hperm, hagg⟩ := h
  simp only [InMem.createPhysicalBusiness]
  refine ⟨?_, ?_, ?_, ?_, ?_⟩
  · simp [hc]
  · intro i hi
    simp only [List.length_append, List.length_cons, List.length_nil] at hi
    by_cases hlt : i < s.businesses.length
    · rw [List.get_append i hlt]
      exact hids i hlt
    · have hi' : i = s.businesses.length := by omega
      subst hi'
      rw [get_append_last]
      simp [hc]
  · intro r hr
    obtain ⟨k, hk, hid⟩ := hrev r hr
    exact ⟨k, by simp only []; omega, hid⟩
  · intro b hb
    rcases List.mem_append.mp hb with hb | hb
    · have := hperm b hb
      simpa [reviewsFor] using this
    · have hbeq : b = ⟨.physical, ⟨Nat.repr (s.businessIdCounter + 1), d.name, d.email,
        .physical d.address d.phone, 0, 0, []⟩⟩ := by simpa using hb
      subst hbeq
      simp only [reviewsFor]
      have hfil : s.reviews.filter
          (fun r => r.business_id == Nat.repr (s.businessIdCounter + 1)) = [] := by
        rw [List.filter_eq_nil]
        intro r hr
        obtain ⟨k, hk, hid⟩ := hrev r hr
        simp only [beq_iff_eq, hid]
        intro hcontra
        have := natRepr_injective _ _ hcontra
        omega
      simpa [hfil] using List.Perm.refl []
  · intro b hb
    rcases List.mem_append.mp hb with hb | hb
    · exact hagg b hb
    · have hbeq : b = ⟨.physical, ⟨Nat.repr (s.businessIdCounter + 1), d.name, d.email,
        .physical d.address d.phone, 0, 0, []⟩⟩ := by simpa using hb
      subst hbeq
      refine ⟨rfl, ?_⟩
      simp [aggConsistent]

theorem storeInv_ids_ne (s : InMemDb) (h : StoreInv s) :
    ∀ i j (hi : i < s.businesses.length) (hj : j < s.businesses.length), i ≠ j →
      (s.businesses.get ⟨i, hi⟩).value.id ≠ (s.businesses.get ⟨j, hj⟩).value.id := by
  intro i j hi hj hij
  rw [h.ids_indexed i hi, h.ids_indexed j hj]
  intro hcontra
  have := natRepr_injective _ _ hcontra
  omega

theorem storeInv_find_mem (s : InMemDb) (h : StoreInv s) (b : Business)
    (hb : b ∈ s.businesses) :
    s.businesses.find? (fun x => x.value.id == b.value.id) = some b := by
  obtain ⟨⟨i, hi⟩, hget⟩ := List.mem_iff_get.mp hb
  rw [← hget]
  exact find_key_at (fun x => x.value.id) s.businesses i hi
    (fun j hj hji => storeInv_ids_ne s h j i hj hi (by omega))

theorem storeInv_update_set (s : InMemDb) (h : StoreInv s) (i : ℕ)
    (hi : i < s.businesses.length) (f : Business → Business) :
    updateBusiness ((s.businesses.get ⟨i, hi⟩).value.id) f s.businesses =
      s.businesses.set i (f (s.businesses.get ⟨i, hi⟩)) :=
  updateBusiness_eq_set s.businesses i hi f
    (fun j hj hji => storeInv_ids_ne s h j i hj hi (by omega))

theorem getBusiness_found (s : InMemDb) (id : String) (b : Business)
    (hfind : s.businesses.find? (fun x => x.value.id == id) = some b) :
    InMem.getBusiness id s =
      (.success ⟨b.type,
          { b.value with latest_reviews := sortReviewsDesc b.value.latest_reviews },
          (sortReviewsDesc b.value.latest_reviews).take 3⟩,
        { s with businesses := updateBusiness id sortStoredBusiness s.businesses }) := by
  simp only [InMem.getBusiness, hfind, sortStoredBusiness]
  rfl

theorem storeInv_fetch (s : InMemDb) (id : String) (h : StoreInv s) :
    StoreInv (InMem.getBusiness id s).2 := by
  rcases hfind : s.businesses.find? (fun b => b.value.id == id) with _ | b
  · simpa [InMem.getBusiness, hfind] using h
  · have hmem : b ∈ s.businesses := List.mem_of_find?_eq_some hfind
    have hid : b.value.id = id := by simpa using List.find?_some hfind
    obtain ⟨⟨i, hi⟩, hget⟩ := List.mem_iff_get.mp hmem
    have hupd : updateBusiness id sortStoredBusiness s.businesses =
        s.businesses.set i (sortStoredBusiness b) := by
      rw [← hid, ← hget]
      rw [storeInv_update_set s h i hi]
    have hs2 : (InMem.getBusiness id s).2 =
        { s with businesses := s.businesses.set i (sortStoredBusiness b) } := by
      rw [getBusiness_found s id b hfind]
      simp only [hupd]
    rw [hs2]
    obtain ⟨hc, hids, hrev, hperm, hagg⟩ := h
    refine ⟨?_, ?_, ?_, ?_, ?_⟩
    · simp [hc]
    · intro j hj
      simp only [List.length_set] at hj
      by_cases hji : j = i
      · subst hji
        have hset := List.get_set_eq (l := s.businesses) (i := j)
          (a := sortStoredBusiness b) (by simpa using hj)
        simp only [hset]
        have hidj : b.value.id = Nat.repr (j + 1) := by rw [← hget]; exact hids j hi
        simpa [sortStoredBusiness] using hidj
      · rw [List.get_set_ne (by omega)]
        exact hids j (by simpa using hj)
    · intro r hr
      exact hrev r hr
    · intro b' hb'
      obtain ⟨⟨j, hj⟩, hgetj⟩ := List.mem_iff_get.mp hb'
      have hjlen : j < s.businesses.length := by simpa using hj
      by_cases hji : j = i
      · subst hji
        have hbeq : b' = sortStoredBusiness b := by
          rw [← hgetj]
          exact List.get_set_eq hj
        subst hbeq
        simp only [reviewsFor, sortStoredBusiness]
        have hperm1 : (sortReviewsDesc b.value.latest_reviews).Perm
            b.value.latest_reviews := List.perm_insertionSort _ _
        have hperm2 := hperm b hmem
        simp only [reviewsFor] at hperm2
        exact hperm1.trans hperm2
      · have hbeq : b' = s.businesses.get ⟨j, hjlen⟩ := by
          rw [← hgetj]
          exact List.get_set_ne (by omega) hj
        have hmem' : b' ∈ s.businesses := hbeq ▸ List.get_mem s.businesses _ _
        have := hperm b' hmem'
        simpa [reviewsFor] using this
    · intro b' hb'
      obtain ⟨⟨j, hj⟩, hgetj⟩ := List.mem_iff_get.mp hb'
      have hjlen : j < s.businesses.length := by simpa using hj
      by_cases hji : j = i
      · subst hji
        have hbeq : b' = sortStoredBusiness b := by
          rw [← hgetj]
          exact List.get_set_eq hj
        subst hbeq
        obtain ⟨htot, havg⟩ := hagg b hmem
        have hlen : (sortReviewsDesc b.value.latest_reviews).length =
            b.value.latest_reviews.length :=
          (List.perm_insertionSort _ _).length_eq
        have hsum : ((sortReviewsDesc b.value.latest_reviews).map
            (fun r => r.rating)).sum = ((b.value.latest_reviews).map
            (fun r => r.rating)).sum :=
          ((List.perm_insertionSort _ _).map _).sum_eq
        constructor
        · simpa [aggConsistent, sortStoredBusiness, hlen] using htot
        · simpa [aggConsistent, sortStoredBusiness, hlen, hsum] using havg
      · have hbeq : b' = s.businesses.get ⟨j, hjlen⟩ := by
          rw [← hgetj]
          exact List.get_set_ne (by omega) hj
        have hmem' : b' ∈ s.businesses := hbeq ▸ List.get_mem s.businesses _ _
        exact hagg b' hmem'

theorem createReview_found (s : InMemDb) (id : String) (d : CreateReviewData)
    (now : ℤ) (b : Business)
    (hfind : s.businesses.find? (fun x => x.value.id == id) = some b) :
    InMem.createReview id d now s =
      (.success ⟨id, d.username, d.rating, d.text, now⟩,
        { s with
            reviews := s.reviews ++ [⟨id, d.username, d.rating, d.text, now⟩]
            businesses := updateBusiness id
              (addReviewToBusiness ⟨id, d.username, d.rating, d.text, now⟩)
              s.businesses }) := by
  simp only [InMem.createReview, hfind, addReviewToBusiness]
  rfl

theorem createReview_not_found (s : InMemDb) (id : String) (d : CreateReviewData)
    (now : ℤ)
    (hfind : s.businesses.find? (fun x => x.value.id == id) = none) :
    InMem.createReview id d now s = (.databaseError "Business not found", s) := by
  simp only [InMem.createReview, hfind]

theorem storeInv_addReview (s : InMemDb) (id : String) (d : CreateReviewData)
    (now : ℤ) (h : StoreInv s) : StoreInv (InMem.createReview id d now s).2 := by
  rcases hfind : s.businesses.find? (fun b => b.value.id == id) with _ | b
  · rw [createReview_not_found s id d now hfind]
    exact h
  · have hmem : b ∈ s.businesses := List.mem_of_find?_eq_some hfind
    have hid : b.value.id = id := by simpa using List.find?_some hfind
    obtain ⟨⟨i, hi⟩, hget⟩ := List.mem_iff_get.mp hmem
    have hidi : b.value.id = Nat.repr (i + 1) := by
      rw [← hget]; exact h.ids_indexed i hi
    have hupd : updateBusiness id
        (addReviewToBusiness ⟨id, d.username, d.rating, d.text, now⟩) s.businesses =
        s.businesses.set i
          (addReviewToBusiness ⟨id, d.username, d.rating, d.text, now⟩ b) := by
      rw [← hid, ← hget]
      rw [storeInv_update_set s h i hi]
    rw [createReview_found s id d now b hfind]
    simp only [hupd]
    obtain ⟨hc, hids, hrev, hperm, hagg⟩ := h
    refine ⟨?_, ?_, ?_, ?_, ?_⟩
    · simp [hc]
    · intro j hj
      simp only [List.length_set] at hj
      by_cases hji : j = i
      · subst hji
        have hset := List.get_set_eq (l := s.businesses) (i := j)
          (a := addReviewToBusiness ⟨id, d.username, d.rating, d.text, now⟩ b)
          (by simpa using hj)
        simp only [hset]
        simpa [addReviewToBusiness] using hidi
      · rw [List.get_set_ne (by omega)]
        exact hids j (by simpa using hj)
    · intro r hr
      simp only [List.mem_append, List.mem_singleton] at hr
      rcases hr with hr | hr
      · have := hrev r hr
        simpa using this
      · subst hr
        refine ⟨i, by simpa [hc] using hi, ?_⟩
        show id = Nat.repr (i + 1)
        rw [← hid]
        exact hidi
    · intro b' hb'
      obtain ⟨⟨j, hj⟩, hgetj⟩ := List.mem_iff_get.mp hb'
      have hjlen : j < s.businesses.length := by simpa using hj
      by_cases hji : j = i
      · subst hji
        have hbeq : b' = addReviewToBusiness ⟨id, d.username, d.rating, d.text, now⟩ b := by
          rw [← hgetj]
          exact List.get_set_eq hj
        subst hbeq
        simp only [reviewsFor, addReviewToBusiness, List.filter_append]
        have hfil1 : List.filter
            (fun r => r.business_id == b.value.id)
            [(⟨id, d.username, d.rating, d.text, now⟩ : Review)] =
            [⟨id, d.username, d.rating, d.text, now⟩] := by
          simp [hid]
        have hperm2 := hperm b hmem
        simp only [reviewsFor] at hperm2
        simpa [hfil1] using hperm2.append_right [(⟨id, d.username, d.rating, d.text, now⟩ : Review)]
      · have hbeq : b' = s.businesses.get ⟨j, hjlen⟩ := by
          rw [← hgetj]
          exact List.get_set_ne (by omega) hj
        have hmem' : b' ∈ s.businesses := hbeq ▸ List.get_mem s.businesses _ _
        have hidj : b'.value.id = Nat.repr (j + 1) := by
          rw [hbeq]; exact hids j hjlen
        have hne : ((⟨id, d.username, d.rating, d.text, now⟩ : Review).business_id ==
            b'.value.id) = false := by
          simp only [beq_eq_false_iff_ne, ne_eq]
          show ¬(id = b'.value.id)
          rw [hidj, ← hid, hidi]
          intro hcontra
          have := natRepr_injective _ _ hcontra
          omega
        have hperm2 := hperm b' hmem'
        simp only [reviewsFor] at hperm2 ⊢
        simpa [List.filter_append, hne] using hperm2
    · intro b' hb'
      obtain ⟨⟨j, hj⟩, hgetj⟩ := List.mem_iff_get.mp hb'
      have hjlen : j < s.businesses.length := by simpa using hj
      by_cases hji : j = i
      · subst hji
        have hbeq : b' = addReviewToBusiness ⟨id, d.username, d.rating, d.text, now⟩ b := by
          rw [← hgetj]
          exact List.get_set_eq hj
        subst hbeq
        obtain ⟨htot, havg⟩ := hagg b hmem
        constructor
        · simp [addReviewToBusiness, htot]
        · simp [addReviewToBusiness, aggConsistent]
      · have hbeq : b' = s.businesses.get ⟨j, hjlen⟩ := by
          rw [← hgetj]
          exact List.get_set_ne (by omega) hj
        have hmem' : b' ∈ s.businesses := hbeq ▸ List.get_mem s.businesses _ _
        exact hagg b' hmem'

theorem storeInv_execOp (s : InMemDb) (op : Op) (h : StoreInv s) :
    StoreInv (execOp s op) := by
  cases op with
  | createOnline d => exact storeInv_createOnline s d h
  | createPhysical d => exact storeInv_createPhysical s d h
  | fetch id => exact storeInv_fetch s id h
  | addReview id d now => exact storeInv_addReview s id d now h

theorem storeInv_foldl (ops : List Op) :
    ∀ s : InMemDb, StoreInv s → StoreInv (ops.foldl execOp s) := by
  induction ops with
  | nil => intro s h; exact h
  | cons op rest ih =>
    intro s h
    exact ih (execOp s op) (storeInv_execOp s op h)

theorem storeInv_of_reachable (s : InMemDb) (h : Reachable s) : StoreInv s := by
  obtain ⟨ops, hops⟩ := h
  rw [← hops]
  exact storeInv_foldl ops initInMemDb storeInv_init

theorem set_get_self {α : Type} (l : List α) (i : ℕ) (h : i < l.length) :
    l.set i (l.get ⟨i, h⟩) = l := by
  apply List.ext_get
  · simp
  · intro n h1 h2
    by_cases hn : n = i
    · subst hn; simp
    · rw [List.get_set_ne (Ne.symm hn)]

/-- C4: in-memory `createReview` against a business id that is not stored
returns the `database_error` variant and leaves the state unchanged. -/
theorem createReview_orphan_fails (s : InMemDb) (id : String)
    (d : CreateReviewData) (now : ℤ)
    (h : ∀ b ∈ s.businesses, b.value.id ≠ id) :
    InMem.createReview id d now s = (.databaseError "Business not found", s) := by
  have hfind : s.businesses.find? (fun b => b.value.id == id) = none :=
    List.find?_eq_none.mpr (fun b hb => by simpa using h b hb)
  exact createReview_not_found s id d now hfind

/-- C4 witness: with only business "1" created, creating a review for id
"999" returns `database_error` and does not change the store. -/
theorem createReview_orphan_fails_witness :
    InMem.createReview "999" ⟨"aaaaaaaaaaaaaaaaaaaaaaaa", 5, "u"⟩ 7
        (execOps [Op.createOnline ⟨"test", "test.com", "t@t.com"⟩]) =
      (.databaseError "Business not found",
        execOps [Op.createOnline ⟨"test", "test.com", "t@t.com"⟩]) :=
  createReview_orphan_fails _ _ _ _ (by decide)

/-- C1: in a reachable store holding a business with the given id, a
review whose text length is in [20,500] and whose rating is an integer in
[1,5] is created successfully; the business's `total_reviews` goes up by
exactly one and its `avg_rating` becomes `floor(10 * mean(ratings of all
reviews created so far for it)) / 10`; and any business with zero reviews
has `avg_rating = 0`. -/
theorem createReview_aggregates (s : InMemDb) (hreach : Reachable s)
    (id : String) (hb : ∃ b ∈ s.businesses, b.value.id = id)
    (d : CreateReviewData) (now : ℤ)
    (htext : 20 ≤ d.text.length ∧ d.text.length ≤ 500)
    (hrating : ∃ n : ℤ, 1 ≤ n ∧ n ≤ 5 ∧ d.rating = (n : ℚ)) :
    ∃ b b' : Business,
      s.businesses.find? (fun x => x.value.id == id) = some b ∧
      (InMem.createReview id d now s).1 =
        .success ⟨id, d.username, d.rating, d.text, now⟩ ∧
      (InMem.createReview id d now s).2.businesses.find?
        (fun x => x.value.id == id) = some b' ∧
      b'.value.total_reviews = b.value.total_reviews + 1 ∧
      b'.value.avg_rating = floorTenths
        (((reviewsFor (InMem.createReview id d now s).2 id).map
            (fun r => r.rating)).sum /
          ((reviewsFor (InMem.createReview id d now s).2 id).length : ℚ)) ∧
      (∀ b0 ∈ s.businesses, b0.value.total_reviews = 0 → b0.value.avg_rating = 0) := by
  have hinv : StoreInv s := storeInv_of_reachable s hreach
  obtain ⟨b, hbmem, hbid⟩ := hb
  have hfind : s.businesses.find? (fun x => x.value.id == id) = some b := by
    have := storeInv_find_mem s hinv b hbmem
    rwa [hbid] at this
  have hrun := createReview_found s id d now b hfind
  set r : Review := ⟨id, d.username, d.rating, d.text, now⟩ with hr
  set b' : Business := addReviewToBusiness r b with hb'
  obtain ⟨⟨i, hi⟩, hget⟩ := List.mem_iff_get.mp hbmem
  have hupd : updateBusiness id (addReviewToBusiness r) s.businesses =
      s.businesses.set i b' := by
    rw [← hbid, ← hget]
    rw [storeInv_update_set s hinv i hi]
    rw [hget]
  have hpost : (InMem.createReview id d now s).2 =
      { s with reviews := s.reviews ++ [r], businesses := s.businesses.set i b' } := by
    rw [hrun]
    simp only [hupd]
  have hpostinv : StoreInv (InMem.createReview id d now s).2 :=
    storeInv_addReview s id d now hinv
  have hb'mem : b' ∈ (InMem.createReview id d now s).2.businesses := by
    rw [hpost]
    exact List.mem_set s.businesses i hi b'
  have hb'id : b'.value.id = id := by
    rw [hb']
    simpa [addReviewToBusiness] using hbid
  have hfind' : (InMem.createReview id d now s).2.businesses.find?
      (fun x => x.value.id == id) = some b' := by
    have := storeInv_find_mem _ hpostinv b' hb'mem
    rwa [hb'id] at this
  refine ⟨b, b', hfind, by rw [hrun], hfind', ?_, ?_, ?_⟩
  · simp [hb', addReviewToBusiness]
  · have hperm := hpostinv.latest_perm b' hb'mem
    rw [hb'id] at hperm
    have hlen : b'.value.latest_reviews.length =
        (reviewsFor (InMem.createReview id d now s).2 id).length := hperm.length_eq
    have hsum : (b'.value.latest_reviews.map (fun x => x.rating)).sum =
        ((reviewsFor (InMem.createReview id d now s).2 id).map
          (fun x => x.rating)).sum := (hperm.map _).sum_eq
    have hlenpos : b'.value.latest_reviews.length ≠ 0 := by
      simp [hb', addReviewToBusiness]
    have havg : b'.value.avg_rating = floorTenths
        ((b'.value.latest_reviews.map (fun x => x.rating)).sum /
          (b'.value.latest_reviews.length : ℚ)) := by
      simp only [hb', addReviewToBusiness]
      simp
    rw [havg, hsum, hlen]
  · intro b0 hb0 htot0
    obtain ⟨htot, havg⟩ := hinv.agg b0 hb0
    rw [havg]
    rw [htot] at htot0
    simp [htot0]

/-- C1 witness: concrete run with one business and one valid review. -/
theorem createReview_aggregates_witness :
    ∃ b b' : Business,
      (execOps [Op.createOnline ⟨"test", "test.com", "t@t.com"⟩]).businesses.find?
        (fun x => x.value.id == "1") = some b ∧
      (InMem.createReview "1" ⟨"aaaaaaaaaaaaaaaaaaaa", 5, "u"⟩ 9
        (execOps [Op.createOnline ⟨"test", "test.com", "t@t.com"⟩])).1 =
        .success ⟨"1", "u", 5, "aaaaaaaaaaaaaaaaaaaa", 9⟩ ∧
      (InMem.createReview "1" ⟨"aaaaaaaaaaaaaaaaaaaa", 5, "u"⟩ 9
        (execOps [Op.createOnline ⟨"test", "test.com", "t@t.com"⟩])).2.businesses.find?
        (fun x => x.value.id == "1") = some b' ∧
      b'.value.total_reviews = b.value.total_reviews + 1 ∧
      b'.value.avg_rating = floorTenths
        (((reviewsFor (InMem.createReview "1" ⟨"aaaaaaaaaaaaaaaaaaaa", 5, "u"⟩ 9
            (execOps [Op.createOnline ⟨"test", "test.com", "t@t.com"⟩])).2 "1").map
            (fun r => r.rating)).sum /
          ((reviewsFor (InMem.createReview "1" ⟨"aaaaaaaaaaaaaaaaaaaa", 5, "u"⟩ 9
            (execOps [Op.createOnline ⟨"test", "test.com", "t@t.com"⟩])).2 "1").length : ℚ)) ∧
      (∀ b0 ∈ (execOps [Op.createOnline ⟨"test", "test.com", "t@t.com"⟩]).businesses,
        b0.value.total_reviews = 0 → b0.value.avg_rating = 0) :=
  createReview_aggregates _ ⟨[Op.createOnline ⟨"test", "test.com", "t@t.com"⟩], rfl⟩
    "1" (by decide) _ 9 (by decide) ⟨5, by norm_num⟩

theorem sortStoredBusiness_of_empty (b : Business)
    (h : b.value.latest_reviews = []) : sortStoredBusiness b = b := by
  obtain ⟨t, v⟩ := b
  obtain ⟨id, name, email, extra, tot, avg, lr⟩ := v
  simp only at h
  subst h
  rfl

/-- C8: on any reachable store, creating an online business with name length
at most 75 (resp. a physical one with name length at most 50) succeeds, and
immediately fetching the returned id succeeds and returns the same fields
with `total_reviews = 0`, `avg_rating = 0` and `latest_reviews = []`,
leaving the store unchanged. -/
theorem create_then_fetch_roundtrip (s : InMemDb) (hreach : Reachable s) :
    (∀ d : CreateOnlineBusinessData, d.name.length ≤ 75 →
      ∃ b : BusinessValue,
        (InMem.createOnlineBusiness d s).1 = .success b ∧
        b.name = d.name ∧ b.email = d.email ∧ b.extra = .online d.website ∧
        b.total_reviews = 0 ∧ b.avg_rating = 0 ∧ b.latest_reviews = [] ∧
        InMem.getBusiness b.id (InMem.createOnlineBusiness d s).2 =
          (.success ⟨.online, b, []⟩, (InMem.createOnlineBusiness d s).2)) ∧
    (∀ d : CreatePhysicalBusinessData, d.name.length ≤ 50 →
      ∃ b : BusinessValue,
        (InMem.createPhysicalBusiness d s).1 = .success b ∧
        b.name = d.name ∧ b.email = d.email ∧ b.extra = .physical d.address d.phone ∧
        b.total_reviews = 0 ∧ b.avg_rating = 0 ∧ b.latest_reviews = [] ∧
        InMem.getBusiness b.id (InMem.createPhysicalBusiness d s).2 =
          (.success ⟨.physical, b, []⟩, (InMem.createPhysicalBusiness d s).2)) := by
  have hinv : StoreInv s := storeInv_of_reachable s hreach
  constructor
  · intro d _
    refine ⟨⟨Nat.repr (s.businessIdCounter + 1), d.name, d.email,
      .online d.website, 0, 0, []⟩, rfl, rfl, rfl, rfl, rfl, rfl, rfl, ?_⟩
    have hinv1 : StoreInv (InMem.createOnlineBusiness d s).2 :=
      storeInv_createOnline s d hinv
    set b : BusinessValue := ⟨Nat.repr (s.businessIdCounter + 1), d.name, d.email,
      .online d.website, 0, 0, []⟩ with hbdef
    set newB : Business := ⟨.online, b⟩ with hnewB
    have hmem : newB ∈ (InMem.createOnlineBusiness d s).2.businesses := by
      simp [InMem.createOnlineBusiness, hnewB]
    have hfind : (InMem.createOnlineBusiness d s).2.businesses.find?
        (fun x => x.value.id == b.id) = some newB :=
      storeInv_find_mem _ hinv1 newB hmem
    rw [getBusiness_found _ b.id newB hfind]
    have hi : s.businesses.length < (InMem.createOnlineBusiness d s).2.businesses.length := by
      simp [InMem.createOnlineBusiness]
    have hgetlast : (InMem.createOnlineBusiness d s).2.businesses.get
        ⟨s.businesses.length, hi⟩ = newB := by
      simp only [InMem.createOnlineBusiness]
      exact get_append_last s.businesses newB hi
    have hupd : updateBusiness b.id sortStoredBusiness
        (InMem.createOnlineBusiness d s).2.businesses =
        (InMem.createOnlineBusiness d s).2.businesses := by
      have h1 : b.id = ((InMem.createOnlineBusiness d s).2.businesses.get
          ⟨s.businesses.length, hi⟩).value.id := by rw [hgetlast]
      rw [h1, storeInv_update_set _ hinv1 s.businesses.length hi, hgetlast]
      rw [sortStoredBusiness_of_empty newB rfl]
      rw [← hgetlast]
      exact set_get_self _ _ _
    rw [hupd]
    have hsorted : sortReviewsDesc newB.value.latest_reviews = [] := rfl
    simp only [hsorted]
    rfl
  · intro d _
    refine ⟨⟨Nat.repr (s.businessIdCounter + 1), d.name, d.email,
      .physical d.address d.phone, 0, 0, []⟩, rfl, rfl, rfl, rfl, rfl, rfl, rfl, ?_⟩
    have hinv1 : StoreInv (InMem.createPhysicalBusiness d s).2 :=
      storeInv_createPhysical s d hinv
    set b : BusinessValue := ⟨Nat.repr (s.businessIdCounter + 1), d.name, d.email,
      .physical d.address d.phone, 0, 0, []⟩ with hbdef
    set newB : Business := ⟨.physical, b⟩ with hnewB
    have hmem : newB ∈ (InMem.createPhysicalBusiness d s).2.businesses := by
      simp [InMem.createPhysicalBusiness, hnewB]
    have hfind : (InMem.createPhysicalBusiness d s).2.businesses.find?
        (fun x => x.value.id == b.id) = some newB :=
      storeInv_find_mem _ hinv1 newB hmem
    rw [getBusiness_found _ b.id newB hfind]
    have hi : s.businesses.length < (InMem.createPhysicalBusiness d s).2.businesses.length := by
      simp [InMem.createPhysicalBusiness]
    have hgetlast : (InMem.createPhysicalBusiness d s).2.businesses.get
        ⟨s.businesses.length, hi⟩ = newB := by
      simp only [InMem.createPhysicalBusiness]
      exact get_append_last s.businesses newB hi
    have hupd : updateBusiness b.id sortStoredBusiness
        (InMem.createPhysicalBusiness d s).2.businesses =
        (InMem.createPhysicalBusiness d s).2.businesses := by
      have h1 : b.id = ((InMem.createPhysicalBusiness d s).2.businesses.get
          ⟨s.businesses.length, hi⟩).value.id := by rw [hgetlast]
      rw [h1, storeInv_update_set _ hinv1 s.businesses.length hi, hgetlast]
      rw [sortStoredBusiness_of_empty newB rfl]
      rw [← hgetlast]
      exact set_get_self _ _ _
    rw [hupd]
    have hsorted : sortReviewsDesc newB.value.latest_reviews = [] := rfl
    simp only [hsorted]
    rfl

/-- C8 witness: a concrete online and physical round trip from the fresh
store. -/
theorem create_then_fetch_roundtrip_witness :
    ∃ b : BusinessValue,
      (InMem.createOnlineBusiness ⟨"test", "test.com", "t@t.com"⟩ initInMemDb).1 =
        .success b ∧
      b.name = "test" ∧ b.email = "t@t.com" ∧ b.extra = .online "test.com" ∧
      b.total_reviews = 0 ∧ b.avg_rating = 0 ∧ b.latest_reviews = [] ∧
      InMem.getBusiness b.id
          (InMem.createOnlineBusiness ⟨"test", "test.com", "t@t.com"⟩ initInMemDb).2 =
        (.success ⟨.online, b, []⟩,
          (InMem.createOnlineBusiness ⟨"test", "test.com", "t@t.com"⟩ initInMemDb).2) :=
  (create_then_fetch_roundtrip initInMemDb ⟨[], rfl⟩).1
    ⟨"test", "test.com", "t@t.com"⟩ (by decide)

theorem getBusiness_counter_eq (id : String) (s : InMemDb) :
    (InMem.getBusiness id s).2.businessIdCounter = s.businessIdCounter := by
  rcases hfind : s.businesses.find? (fun b => b.value.id == id) with _ | b
  · simp [InMem.getBusiness, hfind]
  · rw [getBusiness_found s id b hfind]

theorem createReview_counter_eq (id : String) (d : CreateReviewData) (now : ℤ)
    (s : InMemDb) :
    (InMem.createReview id d now s).2.businessIdCounter = s.businessIdCounter := by
  rcases hfind : s.businesses.find? (fun b => b.value.id == id) with _ | b
  · rw [createReview_not_found s id d now hfind]
  · rw [createReview_found s id d now b hfind]

theorem foldl_counter (ops : List Op) :
    ∀ s : InMemDb, (ops.foldl execOp s).businessIdCounter =
      s.businessIdCounter + countBusinessCreates ops := by
  induction ops with
  | nil => intro s; simp [countBusinessCreates]
  | cons op rest ih =>
    intro s
    rw [List.foldl_cons, ih]
    cases op with
    | createOnline d =>
      simp [execOp, InMem.createOnlineBusiness, countBusinessCreates, List.countP_cons]
      omega
    | createPhysical d =>
      simp [execOp, InMem.createPhysicalBusiness, countBusinessCreates, List.countP_cons]
      omega
    | fetch id =>
      simp [execOp, getBusiness_counter_eq, countBusinessCreates, List.countP_cons]
    | addReview id d now =>
      simp [execOp, createReview_counter_eq, countBusinessCreates, List.countP_cons]

/-- C10: after any operation sequence the stored business ids are pairwise
distinct; the next (N-th) successful creation, online or physical, returns a
business whose id is the decimal string of N, where N counts all business
creations so far plus one; and the in-memory create operations can never
return the `database_error` variant. -/
theorem inMem_ids_distinct_sequential (ops : List Op) :
    ((execOps ops).businesses.map (fun b => b.value.id)).Nodup ∧
    (∀ d : CreateOnlineBusinessData,
      (InMem.createOnlineBusiness d (execOps ops)).1 =
        .success ⟨Nat.repr (countBusinessCreates ops + 1), d.name, d.email,
          .online d.website, 0, 0, []⟩) ∧
    (∀ d : CreatePhysicalBusinessData,
      (InMem.createPhysicalBusiness d (execOps ops)).1 =
        .success ⟨Nat.repr (countBusinessCreates ops + 1), d.name, d.email,
          .physical d.address d.phone, 0, 0, []⟩) ∧
    (∀ (s' : InMemDb) (d : CreateOnlineBusinessData) (msg : String),
      (InMem.createOnlineBusiness d s').1 ≠ .databaseError msg) ∧
    (∀ (s' : InMemDb) (d : CreatePhysicalBusinessData) (msg : String),
      (InMem.createPhysicalBusiness d s').1 ≠ .databaseError msg) := by
  have hinv : StoreInv (execOps ops) :=
    storeInv_of_reachable (execOps ops) ⟨ops, rfl⟩
  have hcounter : (execOps ops).businessIdCounter = countBusinessCreates ops := by
    have := foldl_counter ops initInMemDb
    simpa [execOps, initInMemDb] using this
  refine ⟨?_, ?_, ?_, ?_, ?_⟩
  · rw [List.nodup_iff_injective_get]
    intro ⟨i, hi⟩ ⟨j, hj⟩ h
    rw [List.get_map, List.get_map] at h
    have hi' : i < (execOps ops).businesses.length := by simpa using hi
    have hj' : j < (execOps ops).businesses.length := by simpa using hj
    rw [hinv.ids_indexed i hi', hinv.ids_indexed j hj'] at h
    have := natRepr_injective _ _ h
    exact Fin.ext (by simp only [Fin.val_mk]; omega)
  · intro d
    simp only [InMem.createOnlineBusiness, hcounter]
  · intro d
    simp only [InMem.createPhysicalBusiness, hcounter]
  · intro s' d msg
    simp [InMem.createOnlineBusiness]
  · intro s' d msg
    simp [InMem.createPhysicalBusiness]

/-- C2: on the rating-[1,3,4,5] trace, the serialized business exposes ALL
four reviews sorted by date descending (ratings [5,4,3,1]) — the `slice(0,3)`
window is only stored in the fetch result's top-level `latest_reviews` field,
which the handler's `{type, ...business.value}` spread ignores; the
repository-level top-level field does hold the truncated [5,4,3] window. -/
theorem serialized_latest_reviews_untruncated :
    ∃ (body : BusinessJson) (fetched : InMem.FetchedBusiness),
      (getBusinessHandler "1" (execOps reviewTraceOps)).1 = .jsonBody body ∧
      (InMem.getBusiness "1" (execOps reviewTraceOps)).1 = .success fetched ∧
      body.latest_reviews.map (fun r => r.rating) = [5, 4, 3, 1] ∧
      body.total_reviews = 4 ∧
      fetched.latest_reviews.map (fun r => r.rating) = [5, 4, 3] ∧
      fetched.value.latest_reviews.map (fun r => r.rating) = [5, 4, 3, 1] := by
  refine ⟨_, _, rfl, rfl, by decide, by decide, by decide, by decide⟩

/-- C6: `createBusiness` returns exactly the error "Business name is too
long" with no state change when the name-length rule is violated, and
otherwise calls the matching repository creation operation. -/
theorem createBusiness_length_check (input : CreateBusinessInput) (s : InMemDb) :
    (createBusiness input s = (some "Business name is too long", s) ↔
      nameTooLong input) ∧
    (¬ nameTooLong input →
      createBusiness input s =
        (none, match input with
          | .online n w e => (InMem.createOnlineBusiness ⟨n, w, e⟩ s).2
          | .physical n a p e => (InMem.createPhysicalBusiness ⟨n, a, p, e⟩ s).2)) := by
  cases input with
  | online n w e =>
    by_cases h : n.length > 75
    · exact ⟨by simp [createBusiness, h, nameTooLong], fun hn => absurd h hn⟩
    · constructor
      · simp [createBusiness, h, nameTooLong, InMem.createOnlineBusiness]
      · intro _
        simp [createBusiness, h, InMem.createOnlineBusiness]
  | physical n a p e =>
    by_cases h : n.length > 50
    · exact ⟨by simp [createBusiness, h, nameTooLong], fun hn => absurd h hn⟩
    · constructor
      · simp [createBusiness, h, nameTooLong, InMem.createPhysicalBusiness]
      · intro _
        simp [createBusiness, h, InMem.createPhysicalBusiness]

/-- C6 witness: a 76-character online name is rejected without touching the
store, and a 75-character one is accepted. -/
theorem createBusiness_length_check_witness :
    (createBusiness
        (.online (String.mk (List.replicate 76 'a')) "w.com" "e@e.com")
        initInMemDb =
      (some "Business name is too long", initInMemDb)) ∧
    (createBusiness
        (.online (String.mk (List.replicate 75 'a')) "w.com" "e@e.com")
        initInMemDb =
      (none, (InMem.createOnlineBusiness
        ⟨String.mk (List.replicate 75 'a'), "w.com", "e@e.com"⟩ initInMemDb).2)) :=
  ⟨(createBusiness_length_check _ initInMemDb).1.mpr (by decide),
   (createBusiness_length_check
     (.online (String.mk (List.replicate 75 'a')) "w.com" "e@e.com")
     initInMemDb).2 (by decide)⟩

/-- C5: given a routable business id and a body passing the zod schema,
`postReviewHandler` answers with one of the four validation client errors
exactly when the text length is outside [20,500] or the rating is outside
[1,5] or has a nonzero remainder mod 1; and every input passing all the
checks is handed to the repository's `createReview`, whose result alone
determines the response and the new state. -/
theorem postReview_validation_iff (businessId : String) (body : Json)
    (now : ℤ) (s : InMemDb) (input : CreateReviewData)
    (hid : (safeParseInt businessId).isSome = true)
    (hbody : parseReviewBody body = some input) :
    (((postReviewHandler businessId body now s).1 =
        .clientError "Review text is too short" ∨
      (postReviewHandler businessId body now s).1 =
        .clientError "Review text is too long" ∨
      (postReviewHandler businessId body now s).1 =
        .clientError "Rating is out of range" ∨
      (postReviewHandler businessId body now s).1 =
        .clientError "Rating must be an integer") ↔
      (input.text.length < 20 ∨ input.text.length > 500 ∨
        input.rating < 1 ∨ input.rating > 5 ∨ jsModOne input.rating ≠ 0)) ∧
    ((¬ (input.text.length < 20 ∨ input.text.length > 500 ∨
        input.rating < 1 ∨ input.rating > 5 ∨ jsModOne input.rating ≠ 0)) →
      postReviewHandler businessId body now s =
        (match InMem.createReview businessId input now s with
         | (.databaseError m, s') => (.clientError ("Database error: " ++ m), s')
         | (.success _, s') => (.createdEmpty, s'))) := by
  obtain ⟨n, hn⟩ := Option.isSome_iff_exists.mp hid
  have hvalid : (¬ (input.text.length < 20 ∨ input.text.length > 500 ∨
      input.rating < 1 ∨ input.rating > 5 ∨ jsModOne input.rating ≠ 0)) →
      postReviewHandler businessId body now s =
        (match InMem.createReview businessId input now s with
         | (.databaseError m, s') => (.clientError ("Database error: " ++ m), s')
         | (.success _, s') => (.createdEmpty, s')) := by
    intro hok
    push_neg at hok
    obtain ⟨h1, h2, h3, h4, h5⟩ := hok
    simp only [postReviewHandler, hn, hbody]
    rw [if_neg (by omega), if_neg (by omega), if_neg (by simp [not_or]; exact ⟨h3, h4⟩),
      if_neg (by simpa using h5)]
  refine ⟨⟨?_, ?_⟩, hvalid⟩
  · intro hresp
    by_contra hok
    rw [hvalid hok] at hresp
    rcases hfind : s.businesses.find? (fun b => b.value.id == businessId) with _ | b
    · rw [createReview_not_found s businessId input now hfind] at hresp
      simp only [] at hresp
      rcases hresp with h | h | h | h <;> simp at h
    · rw [createReview_found s businessId input now b hfind] at hresp
      simp only [] at hresp
      rcases hresp with h | h | h | h <;> exact absurd h (by simp)
  · intro hbad
    by_cases h1 : input.text.length < 20
    · left
      simp only [postReviewHandler, hn, hbody]
      rw [if_pos h1]
    · by_cases h2 : input.text.length > 500
      · right; left
        simp only [postReviewHandler, hn, hbody]
        rw [if_neg h1, if_pos h2]
      · by_cases h3 : input.rating < 1 ∨ input.rating > 5
        · right; right; left
          simp only [postReviewHandler, hn, hbody]
          rw [if_neg h1, if_neg h2, if_pos h3]
        · by_cases h4 : jsModOne input.rating ≠ 0
          · right; right; right
            simp only [postReviewHandler, hn, hbody]
            rw [if_neg h1, if_neg h2, if_neg h3, if_pos h4]
          · exfalso
            rcases hbad with h | h | h | h | h
            · exact h1 h
            · exact h2 h
            · exact h3 (Or.inl h)
            · exact h3 (Or.inr h)
            · exact h4 h

/-- C5 witness: a schema-valid body with rating 6 is rejected as out of
range by the handler on the fresh store. -/
theorem postReview_validation_iff_witness :
    (postReviewHandler "1"
        (.obj [("text", .str "aaaaaaaaaaaaaaaaaaaa"), ("rating", .num 6),
          ("username", .str "u")]) 0 initInMemDb).1 =
      .clientError "Review text is too short" ∨
    (postReviewHandler "1"
        (.obj [("text", .str "aaaaaaaaaaaaaaaaaaaa"), ("rating", .num 6),
          ("username", .str "u")]) 0 initInMemDb).1 =
      .clientError "Review text is too long" ∨
    (postReviewHandler "1"
        (.obj [("text", .str "aaaaaaaaaaaaaaaaaaaa"), ("rating", .num 6),
          ("username", .str "u")]) 0 initInMemDb).1 =
      .clientError "Rating is out of range" ∨
    (postReviewHandler "1"
        (.obj [("text", .str "aaaaaaaaaaaaaaaaaaaa"), ("rating", .num 6),
          ("username", .str "u")]) 0 initInMemDb).1 =
      .clientError "Rating must be an integer" :=
  (postReview_validation_iff "1"
      (.obj [("text", .str "aaaaaaaaaaaaaaaaaaaa"), ("rating", .num 6),
        ("username", .str "u")]) 0 initInMemDb
      ⟨"aaaaaaaaaaaaaaaaaaaa", 6, "u"⟩ (by decide) (by decide)).1.mpr
    (by right; right; right; left; decide)

/-- C7: a create-review request rejected for a validation reason (invalid
id, schema mismatch, text length, rating range or integrality) leaves the
repository state unchanged. -/
theorem postReview_reject_no_side_effect (businessId : String) (body : Json)
    (now : ℤ) (s : InMemDb)
    (h : safeParseInt businessId = none ∨ parseReviewBody body = none ∨
      ∃ input, parseReviewBody body = some input ∧
        (input.text.length < 20 ∨ input.text.length > 500 ∨
          input.rating < 1 ∨ input.rating > 5 ∨ jsModOne input.rating ≠ 0)) :
    (postReviewHandler businessId body now s).2 = s := by
  rcases h with h | h | ⟨input, hbody, hbad⟩
  · simp [postReviewHandler, h]
  · rcases hid : safeParseInt businessId with _ | n
    · simp [postReviewHandler, hid]
    · simp [postReviewHandler, hid, h]
  · rcases hid : safeParseInt businessId with _ | n
    · simp [postReviewHandler, hid]
    · by_cases h1 : input.text.length < 20
      · simp [postReviewHandler, hid, hbody, h1]
      · by_cases h2 : input.text.length > 500
        · simp [postReviewHandler, hid, hbody, h1, h2]
        · by_cases h3 : input.rating < 1 ∨ input.rating > 5
          · simp only [postReviewHandler, hid, hbody]
            rw [if_neg h1, if_neg h2, if_pos h3]
          · by_cases h4 : jsModOne input.rating ≠ 0
            · simp only [postReviewHandler, hid, hbody]
              rw [if_neg h1, if_neg h2, if_neg h3, if_pos h4]
            · exfalso
              rcases hbad with h | h | h | h | h
              · exact h1 h
              · exact h2 h
              · exact h3 (Or.inl h)
              · exact h3 (Or.inr h)
              · exact h4 h

/-- C7 witness: a schema-mismatched body (a bare string) leaves the fresh
store untouched. -/
theorem postReview_reject_no_side_effect_witness :
    (postReviewHandler "1" (.str "oops") 0 initInMemDb).2 = initInMemDb :=
  postReview_reject_no_side_effect "1" (.str "oops") 0 initInMemDb
    (Or.inr (Or.inl rfl))

theorem hexDigitsLE_length (w : ℕ) : ∀ m : ℕ, (hexDigitsLE w m).length = w := by
  induction w with
  | zero => intro m; rfl
  | succ w ih => intro m; simp [hexDigitsLE, ih]

theorem hexDigitsLE_lt (w : ℕ) : ∀ m : ℕ, ∀ d ∈ hexDigitsLE w m, d < 16 := by
  induction w with
  | zero => intro m d hd; simp [hexDigitsLE] at hd
  | succ w ih =>
    intro m d hd
    simp only [hexDigitsLE, List.mem_cons] at hd
    rcases hd with hd | hd
    · subst hd; exact Nat.mod_lt _ (by norm_num)
    · exact ih (m / 16) d hd

theorem charDigitVal_hexDigitChar :
    ∀ d : ℕ, d < 16 → charDigitVal 16 (hexDigitChar d) = some d := by
  decide

theorem foldl_hexDigitsLE (w : ℕ) : ∀ m : ℕ,
    ((hexDigitsLE w m).reverse).foldl (fun acc d => 16 * acc + d) 0 = m % 16 ^ w := by
  induction w with
  | zero => intro m; simp [hexDigitsLE, Nat.mod_one]
  | succ w ih =>
    intro m
    show ((hexDigitsLE (w + 1) m).reverse).foldl (fun acc d => 16 * acc + d) 0 = _
    rw [hexDigitsLE, List.reverse_cons, List.foldl_append, ih (m / 16)]
    simp only [List.foldl_cons, List.foldl_nil]
    have hpow : (16:ℕ) ^ (w + 1) = 16 * 16 ^ w := by ring
    rw [hpow, Nat.mod_mul]
    ring

theorem parseHex24_toHex24 (m : ℕ) (hm : m < 16 ^ 24) :
    parseHex24 (toHex24 m) = some m := by
  have hlen : (toHex24 m).length = 24 := by
    simp [toHex24, String.length, hexDigitsLE_length]
  have hall : (toHex24 m).data.all (fun c => (charDigitVal 16 c).isSome) = true := by
    simp only [toHex24, List.all_eq_true]
    intro c hc
    simp only [List.mem_map, List.mem_reverse] at hc
    obtain ⟨d, hd, hcd⟩ := hc
    have := charDigitVal_hexDigitChar d (hexDigitsLE_lt 24 m d hd)
    rw [← hcd, this]
    rfl
  rw [parseHex24, if_pos ⟨hlen, hall⟩]
  congr 1
  have hfold : ∀ ds : List ℕ, (∀ d ∈ ds, d < 16) → ∀ acc : ℕ,
      (ds.map hexDigitChar).foldl
        (fun acc c => 16 * acc + (charDigitVal 16 c).getD 0) acc =
      ds.foldl (fun acc d => 16 * acc + d) acc := by
    intro ds
    induction ds with
    | nil => intro _ acc; rfl
    | cons d t ih =>
      intro hlt acc
      simp only [List.map_cons, List.foldl_cons]
      rw [charDigitVal_hexDigitChar d (hlt d (by simp))]
      exact ih (fun x hx => hlt x (by simp [hx])) _
  show ((hexDigitsLE 24 m).reverse.map hexDigitChar).foldl
      (fun acc c => 16 * acc + (charDigitVal 16 c).getD 0) 0 = m
  rw [hfold ((hexDigitsLE 24 m).reverse)
    (fun d hd => hexDigitsLE_lt 24 m d (List.mem_reverse.mp hd)) 0]
  rw [foldl_hexDigitsLE 24 m]
  exact Nat.mod_eq_of_lt hm

/-- C3 counterexample: on the document-store-backed repository, fetching the
never-issued id "999" (not 24 hex characters) yields the `database_error`
variant, not `record_not_found` as the claim states for both stores. -/
theorem mongo_getBusiness_unissued_database_error :
    (Mongo.getBusiness "999" initMongoState).1 =
      .databaseError "invalid ObjectId hex string" ∧
    (Mongo.getBusiness "999" initMongoState).1 ≠ .recordNotFound := by
  constructor <;> decide

/-- C3 amended: the in-memory `getBusiness` returns `record_not_found` (and
never throws or reports a database error) for every id that was never
issued; the document-store `getBusiness` does so only for well-formed
(24-hex-character) ids whose ObjectId is absent, while a malformed id — any
id the in-memory store would have issued, in particular — is reported as
`database_error`. -/
theorem getBusiness_never_issued (id : String) :
    (∀ s : InMemDb, Reachable s →
      (∀ k, k < s.businessIdCounter → id ≠ Nat.repr (k + 1)) →
      InMem.getBusiness id s = (.recordNotFound, s)) ∧
    (∀ st : MongoState, parseHex24 id = none →
      Mongo.getBusiness id st = (.databaseError "invalid ObjectId hex string", st)) ∧
    (∀ (st : MongoState) (oid : ℕ), parseHex24 id = some oid →
      (∀ doc ∈ st.docs, doc.oid ≠ oid) →
      Mongo.getBusiness id st = (.recordNotFound, st)) := by
  refine ⟨?_, ?_, ?_⟩
  · intro s hreach haway
    have hinv := storeInv_of_reachable s hreach
    have hfind : s.businesses.find? (fun b => b.value.id == id) = none := by
      rw [List.find?_eq_none]
      intro b hb
      obtain ⟨⟨i, hi⟩, hget⟩ := List.mem_iff_get.mp hb
      have hbid : b.value.id = Nat.repr (i + 1) := by
        rw [← hget]; exact hinv.ids_indexed i hi
      have : i < s.businessIdCounter := by rw [← hinv.count_eq]; exact hi
      simp only [beq_iff_eq, hbid]
      exact fun hcontra => haway i this hcontra.symm
    simp [InMem.getBusiness, hfind]
  · intro st hparse
    simp [Mongo.getBusiness, hparse]
  · intro st oid hparse haway
    have hfind : st.docs.find? (fun doc => doc.oid == oid) = none := by
      rw [List.find?_eq_none]
      intro doc hdoc
      simpa using haway doc hdoc
    simp [Mongo.getBusiness, hparse, hfind]

/-- C3 witness: id "999" was never issued; the in-memory store (after one
creation) answers `record_not_found`, the document store answers
`database_error`; and a well-formed absent ObjectId answers
`record_not_found` on the document store. -/
theorem getBusiness_never_issued_witness :
    (InMem.getBusiness "999" (execOps [Op.createOnline ⟨"t", "t.com", "e"⟩]) =
      (.recordNotFound, execOps [Op.createOnline ⟨"t", "t.com", "e"⟩])) ∧
    (Mongo.getBusiness "999" initMongoState =
      (.databaseError "invalid ObjectId hex string", initMongoState)) ∧
    (Mongo.getBusiness (toHex24 5) initMongoState =
      (.recordNotFound, initMongoState)) :=
  ⟨(getBusiness_never_issued "999").1 _ ⟨[Op.createOnline ⟨"t", "t.com", "e"⟩], rfl⟩
      (by decide),
   (getBusiness_never_issued "999").2.1 initMongoState (by decide),
   (getBusiness_never_issued (toHex24 5)).2.2 initMongoState 5
      (parseHex24_toHex24 5 (by norm_num)) (by decide)⟩

/-- C9 counterexample: the same operation sequence — create one online
business, add a rating-1 then a rating-5 review, fetch — produces observably
different results on the two repositories: the in-memory store exposes the
reviews date-descending ([5, 1]) while the document store exposes them in
insertion order ([1, 5]). -/
theorem store_contracts_differ :
    ∃ (fbMem : InMem.FetchedBusiness) (bMongo : Business),
      (InMem.getBusiness "1"
        (InMem.createReview "1" ⟨"aaaaaaaaaaaaaaaaaaaa", 5, "u"⟩ 2
          (InMem.createReview "1" ⟨"aaaaaaaaaaaaaaaaaaaa", 1, "u"⟩ 1
            (InMem.createOnlineBusiness ⟨"test", "test.com", "e"⟩
              initInMemDb).2).2).2).1 = .success fbMem ∧
      (Mongo.getBusiness (toHex24 1)
        (Mongo.createReview (toHex24 1) ⟨"aaaaaaaaaaaaaaaaaaaa", 5, "u"⟩ 2
          (Mongo.createReview (toHex24 1) ⟨"aaaaaaaaaaaaaaaaaaaa", 1, "u"⟩ 1
            (Mongo.createOnlineBusiness ⟨"test", "test.com", "e"⟩
              initMongoState).2).2).2).1 = .success bMongo ∧
      fbMem.value.latest_reviews.map (fun r => r.rating) = [5, 1] ∧
      bMongo.value.latest_reviews.map (fun r => r.rating) = [1, 5] ∧
      fbMem.value.latest_reviews.map (fun r => r.rating) ≠
        bMongo.value.latest_reviews.map (fun r => r.rating) := by
  refine ⟨_, _, rfl, rfl, by decide, by decide, by decide⟩

theorem updateDoc_eq_set :
    ∀ (l : List MongoDoc) (i : ℕ) (h : i < l.length) (newDoc : MongoDoc),
      (∀ j (hj : j < l.length), j < i →
        (l.get ⟨j, hj⟩).oid ≠ (l.get ⟨i, h⟩).oid) →
      updateDoc ((l.get ⟨i, h⟩).oid) newDoc l = l.set i newDoc := by
  intro l
  induction l with
  | nil => intro i h; simp at h
  | cons a t ih =>
    intro i h newDoc hne
    cases i with
    | zero => simp [updateDoc]
    | succ i =>
      have hlen : i < t.length := by simpa using h
      have hhead : a.oid ≠ ((a :: t).get ⟨i + 1, h⟩).oid := by
        have := hne 0 (by simp) (by omega)
        simpa using this
      have hget : (a :: t).get ⟨i + 1, h⟩ = t.get ⟨i, hlen⟩ := rfl
      rw [updateDoc]
      rw [hget] at hhead ⊢
      have hbeq : (a.oid == (t.get ⟨i, hlen⟩).oid) = false := by simpa using hhead
      rw [hbeq]
      simp only [Bool.false_eq_true, if_false, List.set]
      rw [ih i hlen newDoc (fun j hj hji => by
        have := hne (j + 1) (by simpa using Nat.succ_lt_succ hj) (by omega)
        simpa using this)]

theorem corr_mem_find {n : ℕ} {ms : InMemDb} {gs : MongoState}
    {misd gisd : List String} (hc : Corr n ms gs misd gisd) (i : ℕ)
    (hi : i < ms.businesses.length) :
    ms.businesses.find? (fun b => b.value.id == Nat.repr (i + 1)) =
      some (ms.businesses.get ⟨i, hi⟩) := by
  rw [← hc.mem_ids i hi]
  exact find_key_at (fun b => b.value.id) ms.businesses i hi
    (fun j hj hji => by
      show (ms.businesses.get ⟨j, hj⟩).value.id ≠ (ms.businesses.get ⟨i, hi⟩).value.id
      rw [hc.mem_ids j hj, hc.mem_ids i hi]
      intro hcontra
      have := natRepr_injective _ _ hcontra
      omega)

theorem corr_mongo_find {n : ℕ} {ms : InMemDb} {gs : MongoState}
    {misd gisd : List String} (hc : Corr n ms gs misd gisd) (i : ℕ)
    (hi : i < gs.docs.length) :
    gs.docs.find? (fun doc => doc.oid == (i + 1)) =
      some (gs.docs.get ⟨i, hi⟩) := by
  rw [← hc.mongo_oids i hi]
  exact find_key_at (fun doc => doc.oid) gs.docs i hi
    (fun j hj hji => by
      show (gs.docs.get ⟨j, hj⟩).oid ≠ (gs.docs.get ⟨i, hi⟩).oid
      rw [hc.mongo_oids j hj, hc.mongo_oids i hi]
      omega)

theorem corr_mem_issued_get {n : ℕ} {ms : InMemDb} {gs : MongoState}
    {misd gisd : List String} (hc : Corr n ms gs misd gisd) (ref : ℕ) :
    misd.get? ref = if ref < n then some (Nat.repr (ref + 1)) else none := by
  rw [hc.mem_issued, List.get?_map]
  by_cases h : ref < n
  · rw [List.get?_range h, if_pos h]
    rfl
  · rw [if_neg h]
    have : (List.range n).get? ref = none := by
      rw [List.get?_eq_none]
      simpa using Nat.le_of_not_lt h
    rw [this]
    rfl

theorem corr_mongo_issued_get {n : ℕ} {ms : InMemDb} {gs : MongoState}
    {misd gisd : List String} (hc : Corr n ms gs misd gisd) (ref : ℕ) :
    gisd.get? ref = if ref < n then some (toHex24 (ref + 1)) else none := by
  rw [hc.mongo_issued, List.get?_map]
  by_cases h : ref < n
  · rw [List.get?_range h, if_pos h]
    rfl
  · rw [if_neg h]
    have : (List.range n).get? ref = none := by
      rw [List.get?_eq_none]
      simpa using Nat.le_of_not_lt h
    rw [this]
    rfl

theorem get_append_at_length {α : Type} (l : List α) (x : α) (i : ℕ)
    (hi : i = l.length) (h : i < (l ++ [x]).length) : (l ++ [x]).get ⟨i, h⟩ = x := by
  subst hi
  simp

theorem corrStep_createOnline {n : ℕ} {ms : InMemDb} {gs : MongoState}
    {misd gisd : List String} (hc : Corr n ms gs misd gisd)
    (d : CreateOnlineBusinessData) (mobs gobs : List Obs) :
    ∃ ms' gs' misd' gisd',
      memStep ⟨ms, misd, mobs⟩ (.createOnline d) =
        ⟨ms', misd', mobs ++ [.created .online d.name d.email (.online d.website)]⟩ ∧
      mongoStep ⟨gs, gisd, gobs⟩ (.createOnline d) =
        ⟨gs', gisd', gobs ++ [.created .online d.name d.email (.online d.website)]⟩ ∧
      Corr (n + 1) ms' gs' misd' gisd' := by
  obtain ⟨hmcnt, hmctr, hgcnt, hgctr, hmisd, hgisd, hmids, hgoids, hkind, hname,
    hemail, hextra, htotal, hmtl, hgtl, havg, hhist⟩ := hc
  refine ⟨⟨ms.businesses ++ [⟨.online, ⟨Nat.repr (ms.businessIdCounter + 1),
      d.name, d.email, .online d.website, 0, 0, []⟩⟩],
      ms.businessIdCounter + 1, ms.reviews⟩,
    ⟨gs.docs ++ [⟨gs.nextOid + 1, .online, d.name, d.email,
      .online d.website, 0, 0, []⟩], gs.nextOid + 1⟩,
    misd ++ [Nat.repr (ms.businessIdCounter + 1)],
    gisd ++ [toHex24 (gs.nextOid + 1)], ?_, ?_, ?_⟩
  · rfl
  · rfl
  · refine ⟨?_, ?_, ?_, ?_, ?_, ?_, ?_, ?_, ?_, ?_, ?_, ?_, ?_, ?_, ?_, ?_, ?_⟩
    · simp [hmcnt]
    · simp [hmctr]
    · simp [hgcnt]
    · simp [hgctr]
    · rw [hmisd, hmctr, List.range_succ]
      simp
    · rw [hgisd, hgctr, List.range_succ]
      simp
    · intro i hi
      simp only [List.length_append, List.length_cons, List.length_nil] at hi
      by_cases hlt : i < ms.businesses.length
      · rw [List.get_append i hlt]
        exact hmids i hlt
      · have hi' : i = ms.businesses.length := by omega
        subst hi'
        rw [get_append_last]
        simp [hmcnt, hmctr]
    · intro i hi
      simp only [List.length_append, List.length_cons, List.length_nil] at hi
      by_cases hlt : i < gs.docs.length
      · rw [List.get_append i hlt]
        exact hgoids i hlt
      · have hi' : i = gs.docs.length := by omega
        subst hi'
        rw [get_append_last]
        simp [hgcnt, hgctr]
    · intro i him hig
      simp only [List.length_append, List.length_cons, List.length_nil] at him hig
      by_cases hlt : i < ms.businesses.length
      · rw [List.get_append i hlt, List.get_append i (by omega)]
        exact hkind i hlt (by omega)
      · have hi' : i = ms.businesses.length := by omega
        subst hi'
        rw [get_append_at_length _ _ _ rfl, get_append_at_length _ _ _ (by omega)]
    · intro i him hig
      simp only [List.length_append, List.length_cons, List.length_nil] at him hig
      by_cases hlt : i < ms.businesses.length
      · rw [List.get_append i hlt, List.get_append i (by omega)]
        exact hname i hlt (by omega)
      · have hi' : i = ms.businesses.length := by omega
        subst hi'
        rw [get_append_at_length _ _ _ rfl, get_append_at_length _ _ _ (by omega)]
    · intro i him hig
      simp only [List.length_append, List.length_cons, List.length_nil] at him hig
      by_cases hlt : i < ms.businesses.length
      · rw [List.get_append i hlt, List.get_append i (by omega)]
        exact hemail i hlt (by omega)
      · have hi' : i = ms.businesses.length := by omega
        subst hi'
        rw [get_append_at_length _ _ _ rfl, get_append_at_length _ _ _ (by omega)]
    · intro i him hig
      simp only [List.length_append, List.length_cons, List.length_nil] at him hig
      by_cases hlt : i < ms.businesses.length
      · rw [List.get_append i hlt, List.get_append i (by omega)]
        exact hextra i hlt (by omega)
      · have hi' : i = ms.businesses.length := by omega
        subst hi'
        rw [get_append_at_length _ _ _ rfl, get_append_at_length _ _ _ (by omega)]
    · intro i him hig
      simp only [List.length_append, List.length_cons, List.length_nil] at him hig
      by_cases hlt : i < ms.businesses.length
      · rw [List.get_append i hlt, List.get_append i (by omega)]
        exact htotal i hlt (by omega)
      · have hi' : i = ms.businesses.length := by omega
        subst hi'
        rw [get_append_at_length _ _ _ rfl, get_append_at_length _ _ _ (by omega)]
    · intro i him
      simp only [List.length_append, List.length_cons, List.length_nil] at him
      by_cases hlt : i < ms.businesses.length
      · rw [List.get_append i hlt]
        exact hmtl i hlt
      · have hi' : i = ms.businesses.length := by omega
        subst hi'
        rw [get_append_last]
        rfl
    · intro i hig
      simp only [List.length_append, List.length_cons, List.length_nil] at hig
      by_cases hlt : i < gs.docs.length
      · rw [List.get_append i hlt]
        exact hgtl i hlt
      · have hi' : i = gs.docs.length := by omega
        subst hi'
        rw [get_append_last]
        rfl
    · intro i him hig
      simp only [List.length_append, List.length_cons, List.length_nil] at him hig
      by_cases hlt : i < ms.businesses.length
      · rw [List.get_append i hlt, List.get_append i (by omega)]
        exact havg i hlt (by omega)
      · have hi' : i = ms.businesses.length := by omega
        subst hi'
        rw [get_append_at_length _ _ _ rfl, get_append_at_length _ _ _ (by omega)]
    · intro i him hig
      simp only [List.length_append, List.length_cons, List.length_nil] at him hig
      by_cases hlt : i < ms.businesses.length
      · rw [List.get_append i hlt, List.get_append i (by omega)]
        exact hhist i hlt (by omega)
      · have hi' : i = ms.businesses.length := by omega
        subst hi'
        rw [get_append_at_length _ _ _ rfl, get_append_at_length _ _ _ (by omega)]

theorem corrStep_createPhysical {n : ℕ} {ms : InMemDb} {gs : MongoState}
    {misd gisd : List String} (hc : Corr n ms gs misd gisd)
    (d : CreatePhysicalBusinessData) (mobs gobs : List Obs) :
    ∃ ms' gs' misd' gisd',
      memStep ⟨ms, misd, mobs⟩ (.createPhysical d) =
        ⟨ms', misd', mobs ++ [.created .physical d.name d.email (.physical d.address d.phone)]⟩ ∧
      mongoStep ⟨gs, gisd, gobs⟩ (.createPhysical d) =
        ⟨gs', gisd', gobs ++ [.created .physical d.name d.email (.physical d.address d.phone)]⟩ ∧
      Corr (n + 1) ms' gs' misd' gisd' := by
  obtain ⟨hmcnt, hmctr, hgcnt, hgctr, hmisd, hgisd, hmids, hgoids, hkind, hname,
    hemail, hextra, htotal, hmtl, hgtl, havg, hhist⟩ := hc
  refine ⟨⟨ms.businesses ++ [⟨.physical, ⟨Nat.repr (ms.businessIdCounter + 1),
      d.name, d.email, .physical d.address d.phone, 0, 0, []⟩⟩],
      ms.businessIdCounter + 1, ms.reviews⟩,
    ⟨gs.docs ++ [⟨gs.nextOid + 1, .physical, d.name, d.email,
      .physical d.address d.phone, 0, 0, []⟩], gs.nextOid + 1⟩,
    misd ++ [Nat.repr (ms.businessIdCounter + 1)],
    gisd ++ [toHex24 (gs.nextOid + 1)], ?_, ?_, ?_⟩
  · rfl
  · rfl
  · refine ⟨?_, ?_, ?_, ?_, ?_, ?_, ?_, ?_, ?_, ?_, ?_, ?_, ?_, ?_, ?_, ?_, ?_⟩
    · simp [hmcnt]
    · simp [hmctr]
    · simp [hgcnt]
    · simp [hgctr]
    · rw [hmisd, hmctr, List.range_succ]
      simp
    · rw [hgisd, hgctr, List.range_succ]
      simp
    · intro i hi
      simp only [List.length_append, List.length_cons, List.length_nil] at hi
      by_cases hlt : i < ms.businesses.length
      · rw [List.get_append i hlt]
        exact hmids i hlt
      · have hi' : i = ms.businesses.length := by omega
        subst hi'
        rw [get_append_last]
        simp [hmcnt, hmctr]
    · intro i hi
      simp only [List.length_append, List.length_cons, List.length_nil] at hi
      by_cases hlt : i < gs.docs.length
      · rw [List.get_append i hlt]
        exact hgoids i hlt
      · have hi' : i = gs.docs.length := by omega
        subst hi'
        rw [get_append_last]
        simp [hgcnt, hgctr]
    · intro i him hig
      simp only [List.length_append, List.length_cons, List.length_nil] at him hig
      by_cases hlt : i < ms.businesses.length
      · rw [List.get_append i hlt, List.get_append i (by omega)]
        exact hkind i hlt (by omega)
      · have hi' : i = ms.businesses.length := by omega
        subst hi'
        rw [get_append_at_length _ _ _ rfl, get_append_at_length _ _ _ (by omega)]
    · intro i him hig
      simp only [List.length_append, List.length_cons, List.length_nil] at him hig
      by_cases hlt : i < ms.businesses.length
      · rw [List.get_append i hlt, List.get_append i (by omega)]
        exact hname i hlt (by omega)
      · have hi' : i = ms.businesses.length := by omega
        subst hi'
        rw [get_append_at_length _ _ _ rfl, get_append_at_length _ _ _ (by omega)]
    · intro i him hig
      simp only [List.length_append, List.length_cons, List.length_nil] at him hig
      by_cases hlt : i < ms.businesses.length
      · rw [List.get_append i hlt, List.get_append i (by omega)]
        exact hemail i hlt (by omega)
      · have hi' : i = ms.businesses.length := by omega
        subst hi'
        rw [get_append_at_length _ _ _ rfl, get_append_at_length _ _ _ (by omega)]
    · intro i him hig
      simp only [List.length_append, List.length_cons, List.length_nil] at him hig
      by_cases hlt : i < ms.businesses.length
      · rw [List.get_append i hlt, List.get_append i (by omega)]
        exact hextra i hlt (by omega)
      · have hi' : i = ms.businesses.length := by omega
        subst hi'
        rw [get_append_at_length _ _ _ rfl, get_append_at_length _ _ _ (by omega)]
    · intro i him hig
      simp only [List.length_append, List.length_cons, List.length_nil] at him hig
      by_cases hlt : i < ms.businesses.length
      · rw [List.get_append i hlt, List.get_append i (by omega)]
        exact htotal i hlt (by omega)
      · have hi' : i = ms.businesses.length := by omega
        subst hi'
        rw [get_append_at_length _ _ _ rfl, get_append_at_length _ _ _ (by omega)]
    · intro i him
      simp only [List.length_append, List.length_cons, List.length_nil] at him
      by_cases hlt : i < ms.businesses.length
      · rw [List.get_append i hlt]
        exact hmtl i hlt
      · have hi' : i = ms.businesses.length := by omega
        subst hi'
        rw [get_append_last]
        rfl
    · intro i hig
      simp only [List.length_append, List.length_cons, List.length_nil] at hig
      by_cases hlt : i < gs.docs.length
      · rw [List.get_append i hlt]
        exact hgtl i hlt
      · have hi' : i = gs.docs.length := by omega
        subst hi'
        rw [get_append_last]
        rfl
    · intro i him hig
      simp only [List.length_append, List.length_cons, List.length_nil] at him hig
      by_cases hlt : i < ms.businesses.length
      · rw [List.get_append i hlt, List.get_append i (by omega)]
        exact havg i hlt (by omega)
      · have hi' : i = ms.businesses.length := by omega
        subst hi'
        rw [get_append_at_length _ _ _ rfl, get_append_at_length _ _ _ (by omega)]
    · intro i him hig
      simp only [List.length_append, List.length_cons, List.length_nil] at him hig
      by_cases hlt : i < ms.businesses.length
      · rw [List.get_append i hlt, List.get_append i (by omega)]
        exact hhist i hlt (by omega)
      · have hi' : i = ms.businesses.length := by omega
        subst hi'
        rw [get_append_at_length _ _ _ rfl, get_append_at_length _ _ _ (by omega)]

theorem corrStep_fetch {n : ℕ} {ms : InMemDb} {gs : MongoState}
    {misd gisd : List String} (hc : Corr n ms gs misd gisd)
    (hbound : n < 16 ^ 24) (ref : ℕ) (mobs gobs : List Obs) :
    ∃ ms' o,
      memStep ⟨ms, misd, mobs⟩ (.fetch ref) = ⟨ms', misd, mobs ++ [o]⟩ ∧
      mongoStep ⟨gs, gisd, gobs⟩ (.fetch ref) = ⟨gs, gisd, gobs ++ [o]⟩ ∧
      Corr n ms' gs misd gisd := by
  by_cases href : ref < n
  · have hmg : misd.get? ref = some (Nat.repr (ref + 1)) := by
      rw [corr_mem_issued_get hc ref, if_pos href]
    have hgg : gisd.get? ref = some (toHex24 (ref + 1)) := by
      rw [corr_mongo_issued_get hc ref, if_pos href]
    have hrefm : ref < ms.businesses.length := by rw [hc.mem_count]; exact href
    have hrefg : ref < gs.docs.length := by rw [hc.mongo_count]; exact href
    set b : Business := ms.businesses.get ⟨ref, hrefm⟩ with hb
    set doc : MongoDoc := gs.docs.get ⟨ref, hrefg⟩ with hdoc
    have hkind' : b.type = doc.type := hc.kind_eq ref hrefm hrefg
    have hname' : b.value.name = doc.name := hc.name_eq ref hrefm hrefg
    have hemail' : b.value.email = doc.email := hc.email_eq ref hrefm hrefg
    have hextra' : b.value.extra = doc.extra := hc.extra_eq ref hrefm hrefg
    have htotal' : b.value.total_reviews = doc.total_reviews :=
      hc.total_eq ref hrefm hrefg
    have havg' : b.value.avg_rating = doc.avg_rating := hc.avg_eq ref hrefm hrefg
    have hhist' : (b.value.latest_reviews.map reviewCore).Perm
        (doc.latest_reviews.map reviewCore) := hc.history_perm ref hrefm hrefg
    have hfindm : ms.businesses.find? (fun x => x.value.id == Nat.repr (ref + 1)) =
        some b := corr_mem_find hc ref hrefm
    have hfindg : gs.docs.find? (fun x => x.oid == (ref + 1)) = some doc :=
      corr_mongo_find hc ref hrefg
    have hupd : updateBusiness (Nat.repr (ref + 1)) sortStoredBusiness ms.businesses =
        ms.businesses.set ref (sortStoredBusiness b) := by
      rw [← hc.mem_ids ref hrefm]
      exact updateBusiness_eq_set ms.businesses ref hrefm sortStoredBusiness
        (fun j hj hji => by
          rw [hc.mem_ids j hj, hc.mem_ids ref hrefm]
          intro hcontra
          have := natRepr_injective _ _ hcontra
          omega)
    have hparse : parseHex24 (toHex24 (ref + 1)) = some (ref + 1) :=
      parseHex24_toHex24 (ref + 1) (by omega)
    have hmemget : InMem.getBusiness (Nat.repr (ref + 1)) ms =
        (.success ⟨b.type,
            { b.value with latest_reviews := sortReviewsDesc b.value.latest_reviews },
            (sortReviewsDesc b.value.latest_reviews).take 3⟩,
          { ms with businesses := ms.businesses.set ref (sortStoredBusiness b) }) := by
      rw [getBusiness_found ms (Nat.repr (ref + 1)) b hfindm]
      rw [hupd]
    have hmongoget : Mongo.getBusiness (toHex24 (ref + 1)) gs =
        (.success ⟨doc.type, ⟨toHex24 doc.oid, doc.name, doc.email, doc.extra,
          doc.total_reviews, doc.avg_rating, doc.latest_reviews⟩⟩, gs) := by
      simp only [Mongo.getBusiness, hparse, hfindg]
    have hsortperm : (↑((sortReviewsDesc b.value.latest_reviews).map reviewCore) :
        Multiset RCore) = ↑(b.value.latest_reviews.map reviewCore) :=
      Multiset.coe_eq_coe.mpr ((List.perm_insertionSort _ _).map reviewCore)
    have hdocperm : (↑(b.value.latest_reviews.map reviewCore) : Multiset RCore) =
        ↑(doc.latest_reviews.map reviewCore) := Multiset.coe_eq_coe.mpr hhist'
    refine ⟨{ ms with businesses := ms.businesses.set ref (sortStoredBusiness b) },
      .fetched b.type b.value.name b.value.email b.value.extra
        b.value.total_reviews b.value.avg_rating
        ↑(b.value.latest_reviews.map reviewCore), ?_, ?_, ?_⟩
    · simp only [memStep, hmg, hmemget, hsortperm]
    · simp only [mongoStep, hgg, hmongoget, hkind', hname', hemail', hextra',
        htotal', havg', hdocperm]
    · refine ⟨?_, hc.mem_counter, hc.mongo_count, hc.mongo_counter, hc.mem_issued,
        hc.mongo_issued, ?_, hc.mongo_oids, ?_, ?_, ?_, ?_, ?_, ?_,
        hc.mongo_total_len, ?_, ?_⟩
      · simpa using hc.mem_count
      · intro i hi
        have hi' : i < ms.businesses.length := by simpa using hi
        by_cases hji : i = ref
        · subst hji
          rw [List.get_set_eq]
          show (sortStoredBusiness b).value.id = Nat.repr (i + 1)
          simp only [sortStoredBusiness]
          exact hc.mem_ids i hrefm
        · rw [List.get_set_ne (fun hcontra => hji hcontra.symm)]
          exact hc.mem_ids i hi'
      · intro i him hig
        have him' : i < ms.businesses.length := by simpa using him
        by_cases hji : i = ref
        · subst hji
          rw [List.get_set_eq]
          exact hkind'
        · rw [List.get_set_ne (fun hcontra => hji hcontra.symm)]
          exact hc.kind_eq i him' hig
      · intro i him hig
        have him' : i < ms.businesses.length := by simpa using him
        by_cases hji : i = ref
        · subst hji
          rw [List.get_set_eq]
          exact hname'
        · rw [List.get_set_ne (fun hcontra => hji hcontra.symm)]
          exact hc.name_eq i him' hig
      · intro i him hig
        have him' : i < ms.businesses.length := by simpa using him
        by_cases hji : i = ref
        · subst hji
          rw [List.get_set_eq]
          exact hemail'
        · rw [List.get_set_ne (fun hcontra => hji hcontra.symm)]
          exact hc.email_eq i him' hig
      · intro i him hig
        have him' : i < ms.businesses.length := by simpa using him
        by_cases hji : i = ref
        · subst hji
          rw [List.get_set_eq]
          exact hextra'
        · rw [List.get_set_ne (fun hcontra => hji hcontra.symm)]
          exact hc.extra_eq i him' hig
      · intro i him hig
        have him' : i < ms.businesses.length := by simpa using him
        by_cases hji : i = ref
        · subst hji
          rw [List.get_set_eq]
          exact htotal'
        · rw [List.get_set_ne (fun hcontra => hji hcontra.symm)]
          exact hc.total_eq i him' hig
      · intro i him
        have him' : i < ms.businesses.length := by simpa using him
        by_cases hji : i = ref
        · subst hji
          rw [List.get_set_eq]
          show (sortStoredBusiness b).value.total_reviews =
            (sortStoredBusiness b).value.latest_reviews.length
          simp only [sortStoredBusiness, sortReviewsDesc]
          rw [(List.perm_insertionSort _ _).length_eq]
          exact hc.mem_total_len i hrefm
        · rw [List.get_set_ne (fun hcontra => hji hcontra.symm)]
          exact hc.mem_total_len i him'
      · intro i him hig
        have him' : i < ms.businesses.length := by simpa using him
        by_cases hji : i = ref
        · subst hji
          rw [List.get_set_eq]
          exact havg'
        · rw [List.get_set_ne (fun hcontra => hji hcontra.symm)]
          exact hc.avg_eq i him' hig
      · intro i him hig
        have him' : i < ms.businesses.length := by simpa using him
        by_cases hji : i = ref
        · subst hji
          rw [List.get_set_eq]
          show ((sortStoredBusiness b).value.latest_reviews.map reviewCore).Perm
            (doc.latest_reviews.map reviewCore)
          simp only [sortStoredBusiness, sortReviewsDesc]
          exact ((List.perm_insertionSort _ _).map reviewCore).trans hhist'
        · rw [List.get_set_ne (fun hcontra => hji hcontra.symm)]
          exact hc.history_perm i him' hig
  · have hmg : misd.get? ref = none := by
      rw [corr_mem_issued_get hc ref, if_neg href]
    have hgg : gisd.get? ref = none := by
      rw [corr_mongo_issued_get hc ref, if_neg href]
    refine ⟨ms, .skipped, ?_, ?_, hc⟩
    · simp only [memStep, hmg]
    · simp only [mongoStep, hgg]

theorem corrStep_review {n : ℕ} {ms : InMemDb} {gs : MongoState}
    {misd gisd : List String} (hc : Corr n ms gs misd gisd)
    (hbound : n < 16 ^ 24) (ref : ℕ) (d : CreateReviewData) (now : ℤ)
    (mobs gobs : List Obs) :
    ∃ ms' gs' o,
      memStep ⟨ms, misd, mobs⟩ (.review ref d now) = ⟨ms', misd, mobs ++ [o]⟩ ∧
      mongoStep ⟨gs, gisd, gobs⟩ (.review ref d now) = ⟨gs', gisd, gobs ++ [o]⟩ ∧
      Corr n ms' gs' misd gisd := by
  by_cases href : ref < n
  · have hmg : misd.get? ref = some (Nat.repr (ref + 1)) := by
      rw [corr_mem_issued_get hc ref, if_pos href]
    have hgg : gisd.get? ref = some (toHex24 (ref + 1)) := by
      rw [corr_mongo_issued_get hc ref, if_pos href]
    have hrefm : ref < ms.businesses.length := by rw [hc.mem_count]; exact href
    have hrefg : ref < gs.docs.length := by rw [hc.mongo_count]; exact href
    set b : Business := ms.businesses.get ⟨ref, hrefm⟩ with hb
    set doc : MongoDoc := gs.docs.get ⟨ref, hrefg⟩ with hdoc
    have hoid : doc.oid = ref + 1 := hc.mongo_oids ref hrefg
    have htotal' : b.value.total_reviews = doc.total_reviews :=
      hc.total_eq ref hrefm hrefg
    have hmtl' : b.value.total_reviews = b.value.latest_reviews.length :=
      hc.mem_total_len ref hrefm
    have hgtl' : doc.total_reviews = doc.latest_reviews.length :=
      hc.mongo_total_len ref hrefg
    have hhist' : (b.value.latest_reviews.map reviewCore).Perm
        (doc.latest_reviews.map reviewCore) := hc.history_perm ref hrefm hrefg
    have hlen' : b.value.latest_reviews.length = doc.latest_reviews.length := by
      have := hhist'.length_eq
      simpa using this
    have hsum' : (b.value.latest_reviews.map (fun r => r.rating)).sum =
        (doc.latest_reviews.map (fun r => r.rating)).sum := by
      have h1 := (hhist'.map (fun c => c.rating)).sum_eq
      simpa [List.map_map, Function.comp] using h1
    have hfindm : ms.businesses.find? (fun x => x.value.id == Nat.repr (ref + 1)) =
        some b := corr_mem_find hc ref hrefm
    have hfindg : gs.docs.find? (fun x => x.oid == (ref + 1)) = some doc :=
      corr_mongo_find hc ref hrefg
    set r : Review := ⟨Nat.repr (ref + 1), d.username, d.rating, d.text, now⟩ with hr
    set rg : Review := ⟨toHex24 (ref + 1), d.username, d.rating, d.text, now⟩ with hrg
    have hupd : updateBusiness (Nat.repr (ref + 1)) (addReviewToBusiness r)
        ms.businesses = ms.businesses.set ref (addReviewToBusiness r b) := by
      rw [← hc.mem_ids ref hrefm]
      exact updateBusiness_eq_set ms.businesses ref hrefm (addReviewToBusiness r)
        (fun j hj hji => by
          rw [hc.mem_ids j hj, hc.mem_ids ref hrefm]
          intro hcontra
          have := natRepr_injective _ _ hcontra
          omega)
    set doc' : MongoDoc :=
      { doc with
          latest_reviews := doc.latest_reviews ++ [rg]
          total_reviews := (doc.latest_reviews ++ [rg]).length
          avg_rating :=
            if (doc.latest_reviews ++ [rg]).length ≠ 0 then
              floorTenths (((doc.latest_reviews ++ [rg]).map (fun x => x.rating)).sum /
                ((doc.latest_reviews ++ [rg]).length : ℚ))
            else 0 } with hdoc'
    have hupdg : updateDoc (ref + 1) doc' gs.docs = gs.docs.set ref doc' := by
      rw [← hoid]
      exact updateDoc_eq_set gs.docs ref hrefg doc'
        (fun j hj hji => by
          rw [hc.mongo_oids j hj, hc.mongo_oids ref hrefg]
          omega)
    have hparse : parseHex24 (toHex24 (ref + 1)) = some (ref + 1) :=
      parseHex24_toHex24 (ref + 1) (by omega)
    have hmemrun : InMem.createReview (Nat.repr (ref + 1)) d now ms =
        (.success r,
          { ms with
              reviews := ms.reviews ++ [r]
              businesses := ms.businesses.set ref (addReviewToBusiness r b) }) := by
      rw [createReview_found ms (Nat.repr (ref + 1)) d now b hfindm]
      rw [hupd]
    have hmongorun : Mongo.createReview (toHex24 (ref + 1)) d now gs =
        (.success rg, ⟨gs.docs.set ref doc', gs.nextOid⟩) := by
      simp only [Mongo.createReview, hparse, hfindg]
      rw [hupdg]
    refine ⟨{ ms with
        reviews := ms.reviews ++ [r]
        businesses := ms.businesses.set ref (addReviewToBusiness r b) },
      ⟨gs.docs.set ref doc', gs.nextOid⟩,
      .reviewed ⟨d.username, d.rating, d.text, now⟩, ?_, ?_, ?_⟩
    · simp only [memStep, hmg, hmemrun]
      rfl
    · simp only [mongoStep, hgg, hmongorun]
      rfl
    · refine ⟨?_, hc.mem_counter, ?_, hc.mongo_counter, hc.mem_issued,
        hc.mongo_issued, ?_, ?_, ?_, ?_, ?_, ?_, ?_, ?_, ?_, ?_, ?_⟩
      · simpa using hc.mem_count
      · simpa using hc.mongo_count
      · intro i hi
        have hi' : i < ms.businesses.length := by simpa using hi
        by_cases hji : i = ref
        · subst hji
          rw [List.get_set_eq]
          show (addReviewToBusiness r b).value.id = Nat.repr (i + 1)
          simp only [addReviewToBusiness]
          exact hc.mem_ids i hrefm
        · rw [List.get_set_ne (fun hcontra => hji hcontra.symm)]
          exact hc.mem_ids i hi'
      · intro i hi
        have hi' : i < gs.docs.length := by simpa using hi
        by_cases hji : i = ref
        · subst hji
          rw [List.get_set_eq]
          show doc'.oid = i + 1
          rw [hdoc']
          exact hoid
        · rw [List.get_set_ne (fun hcontra => hji hcontra.symm)]
          exact hc.mongo_oids i hi'
      · intro i him hig
        have him' : i < ms.businesses.length := by simpa using him
        have hig' : i < gs.docs.length := by simpa using hig
        by_cases hji : i = ref
        · subst hji
          rw [List.get_set_eq, List.get_set_eq]
          exact hc.kind_eq i hrefm hrefg
        · rw [List.get_set_ne (fun hcontra => hji hcontra.symm),
            List.get_set_ne (fun hcontra => hji hcontra.symm)]
          exact hc.kind_eq i him' hig'
      · intro i him hig
        have him' : i < ms.businesses.length := by simpa using him
        have hig' : i < gs.docs.length := by simpa using hig
        by_cases hji : i = ref
        · subst hji
          rw [List.get_set_eq, List.get_set_eq]
          exact hc.name_eq i hrefm hrefg
        · rw [List.get_set_ne (fun hcontra => hji hcontra.symm),
            List.get_set_ne (fun hcontra => hji hcontra.symm)]
          exact hc.name_eq i him' hig'
      · intro i him hig
        have him' : i < ms.businesses.length := by simpa using him
        have hig' : i < gs.docs.length := by simpa using hig
        by_cases hji : i = ref
        · subst hji
          rw [List.get_set_eq, List.get_set_eq]
          exact hc.email_eq i hrefm hrefg
        · rw [List.get_set_ne (fun hcontra => hji hcontra.symm),
            List.get_set_ne (fun hcontra => hji hcontra.symm)]
          exact hc.email_eq i him' hig'
      · intro i him hig
        have him' : i < ms.businesses.length := by simpa using him
        have hig' : i < gs.docs.length := by simpa using hig
        by_cases hji : i = ref
        · subst hji
          rw [List.get_set_eq, List.get_set_eq]
          exact hc.extra_eq i hrefm hrefg
        · rw [List.get_set_ne (fun hcontra => hji hcontra.symm),
            List.get_set_ne (fun hcontra => hji hcontra.symm)]
          exact hc.extra_eq i him' hig'
      · intro i him hig
        have him' : i < ms.businesses.length := by simpa using him
        have hig' : i < gs.docs.length := by simpa using hig
        by_cases hji : i = ref
        · subst hji
          rw [List.get_set_eq, List.get_set_eq]
          show (addReviewToBusiness r b).value.total_reviews = doc'.total_reviews
          simp only [addReviewToBusiness, hdoc', List.length_append,
            List.length_cons, List.length_nil]
          omega
        · rw [List.get_set_ne (fun hcontra => hji hcontra.symm),
            List.get_set_ne (fun hcontra => hji hcontra.symm)]
          exact hc.total_eq i him' hig'
      · intro i him
        have him' : i < ms.businesses.length := by simpa using him
        by_cases hji : i = ref
        · subst hji
          rw [List.get_set_eq]
          show (addReviewToBusiness r b).value.total_reviews =
            (addReviewToBusiness r b).value.latest_reviews.length
          simp only [addReviewToBusiness, List.length_append,
            List.length_cons, List.length_nil]
          omega
        · rw [List.get_set_ne (fun hcontra => hji hcontra.symm)]
          exact hc.mem_total_len i him'
      · intro i hig
        have hig' : i < gs.docs.length := by simpa using hig
        by_cases hji : i = ref
        · subst hji
          rw [List.get_set_eq]
        · rw [List.get_set_ne (fun hcontra => hji hcontra.symm)]
          exact hc.mongo_total_len i hig'
      · intro i him hig
        have him' : i < ms.businesses.length := by simpa using him
        have hig' : i < gs.docs.length := by simpa using hig
        by_cases hji : i = ref
        · subst hji
          rw [List.get_set_eq, List.get_set_eq]
          show (addReviewToBusiness r b).value.avg_rating = doc'.avg_rating
          simp only [addReviewToBusiness, hdoc', List.map_append, List.sum_append,
            List.length_append, List.length_cons, List.length_nil, List.map_cons,
            List.map_nil, List.sum_cons, List.sum_nil, hsum', hlen']
        · rw [List.get_set_ne (fun hcontra => hji hcontra.symm),
            List.get_set_ne (fun hcontra => hji hcontra.symm)]
          exact hc.avg_eq i him' hig'
      · intro i him hig
        have him' : i < ms.businesses.length := by simpa using him
        have hig' : i < gs.docs.length := by simpa using hig
        by_cases hji : i = ref
        · subst hji
          rw [List.get_set_eq, List.get_set_eq]
          show ((addReviewToBusiness r b).value.latest_reviews.map reviewCore).Perm
            (doc'.latest_reviews.map reviewCore)
          simp only [addReviewToBusiness, hdoc', List.map_append, List.map_cons,
            List.map_nil]
          exact hhist'.append_right _
        · rw [List.get_set_ne (fun hcontra => hji hcontra.symm),
            List.get_set_ne (fun hcontra => hji hcontra.symm)]
          exact hc.history_perm i him' hig'
  · have hmg : misd.get? ref = none := by
      rw [corr_mem_issued_get hc ref, if_neg href]
    have hgg : gisd.get? ref = none := by
      rw [corr_mongo_issued_get hc ref, if_neg href]
    refine ⟨ms, gs, .skipped, ?_, ?_, hc⟩
    · simp only [memStep, hmg]
    · simp only [mongoStep, hgg]

theorem corr_init : Corr 0 initInMemDb initMongoState [] [] := by
  refine ⟨rfl, rfl, rfl, rfl, by simp, by simp, ?_, ?_, ?_, ?_, ?_, ?_, ?_, ?_,
    ?_, ?_, ?_⟩ <;> intro i hi <;> simp [initInMemDb, initMongoState] at hi

theorem runFrom_obs_eq (ops : List StoreOp) :
    ∀ (n : ℕ) (mr : MemRun) (gr : MongoRun),
      Corr n mr.s gr.s mr.issued gr.issued →
      mr.obs = gr.obs →
      n + ops.length ≤ 16 ^ 24 →
      (ops.foldl memStep mr).obs = (ops.foldl mongoStep gr).obs := by
  induction ops with
  | nil => intro n mr gr _ hobs _; exact hobs
  | cons op rest ih =>
    intro n mr gr hcorr hobs hbound
    obtain ⟨ms, misd, mobs⟩ := mr
    obtain ⟨gs, gisd, gobs⟩ := gr
    simp only [List.length_cons] at hbound
    cases op with
    | createOnline d =>
      obtain ⟨ms', gs', misd', gisd', hmem, hmongo, hcorr'⟩ :=
        corrStep_createOnline hcorr d mobs gobs
      rw [List.foldl_cons, List.foldl_cons, hmem, hmongo]
      exact ih (n + 1) _ _ hcorr' (by have hobs' : mobs = gobs := hobs; rw [hobs']) (by omega)
    | createPhysical d =>
      obtain ⟨ms', gs', misd', gisd', hmem, hmongo, hcorr'⟩ :=
        corrStep_createPhysical hcorr d mobs gobs
      rw [List.foldl_cons, List.foldl_cons, hmem, hmongo]
      exact ih (n + 1) _ _ hcorr' (by have hobs' : mobs = gobs := hobs; rw [hobs']) (by omega)
    | fetch ref =>
      obtain ⟨ms', o, hmem, hmongo, hcorr'⟩ :=
        corrStep_fetch hcorr (by omega) ref mobs gobs
      rw [List.foldl_cons, List.foldl_cons, hmem, hmongo]
      exact ih n _ _ hcorr' (by have hobs' : mobs = gobs := hobs; rw [hobs']) (by omega)
    | review ref d now =>
      obtain ⟨ms', gs', o, hmem, hmongo, hcorr'⟩ :=
        corrStep_review hcorr (by omega) ref d now mobs gobs
      rw [List.foldl_cons, List.foldl_cons, hmem, hmongo]
      exact ih n _ _ hcorr' (by have hobs' : mobs = gobs := hobs; rw [hobs']) (by omega)

/-- C9 amended: the two repositories do NOT satisfy identical external
contracts — `store_contracts_differ` exhibits the same call sequence
returning differently-ordered (and differently-truncated) `latest_reviews`.
What does hold, for every operation sequence (of any length a 12-byte
ObjectId space can serve), is equivalence up to review order and
truncation: both repositories produce the same result variants and, on
success, the same business fields — type, name, email, variant fields,
`total_reviews`, `avg_rating` — and the same multiset of (id-stripped)
reviews. -/
theorem inmem_mongo_equiv_up_to_order (ops : List StoreOp)
    (hlen : ops.length ≤ 16 ^ 24) :
    (runMem ops).obs = (runMongo ops).obs :=
  runFrom_obs_eq ops 0 ⟨initInMemDb, [], []⟩ ⟨initMongoState, [], []⟩ corr_init rfl
    (by simpa using hlen)

/-- C9 amended witness: a concrete three-operation run yields identical
observations on both stores. -/
theorem inmem_mongo_equiv_up_to_order_witness :
    (runMem [StoreOp.createOnline ⟨"test", "test.com", "e"⟩,
      StoreOp.review 0 ⟨"aaaaaaaaaaaaaaaaaaaa", 5, "u"⟩ 1,
      StoreOp.fetch 0]).obs =
    (runMongo [StoreOp.createOnline ⟨"test", "test.com", "e"⟩,
      StoreOp.review 0 ⟨"aaaaaaaaaaaaaaaaaaaa", 5, "u"⟩ 1,
      StoreOp.fetch 0]).obs :=
  inmem_mongo_equiv_up_to_order _ (by norm_num)
